import Mathlib

/-!
# x86-Simulator: decode and execute engine

A shallow embedding of `simulator.c`: the decoder `decode_instructions`, the
step function `execute_instruction` and the fetch/execute loop of `main`,
followed by theorems about them.

Conventions of the embedding.

* `unsigned int` values are natural numbers below `2^32`; every arithmetic
  result is reduced with `u32` / `wrap32`.
* `long` is 64 bits wide, so the `long` difference of two `int` values is exact.
* The `int` subtraction of the sign test of `cmpl` is undefined in C when the
  difference does not fit in an `int`.  What the test yields then depends on
  how the program was built; it is a parameter of the embedding (`Build`), and
  every theorem with `[Build]` holds for all builds.  Closed examples are
  evaluated with `wrapping_build` unless they name another build.
* `memcpy` of 4 bytes between a register and `memory` is little-endian.
* An access outside the 17 registers, the 1024 bytes of `memory` or the
  instruction array is undefined behaviour in C; the embedding reports it as
  `Outcome.undefined`.
-/

namespace Simulator

/-! ## Machine integers -/

/-- Reduction of a natural number to an `unsigned int`. -/
def wrap32 (n : Nat) : Nat := n % 4294967296

/-- Conversion of an integer to `unsigned int` (reduction modulo `2^32`). -/
def u32 (x : Int) : Nat := (x % 4294967296).toNat

/-- The value of a 32-bit pattern read as `int`. -/
def toInt32 (x : Nat) : Int :=
  if x < 2147483648 then (x : Int) else (x : Int) - 4294967296

/-- The value of a 16-bit pattern read as `int16_t`. -/
def sext16 (x : Nat) : Int :=
  if x < 32768 then (x : Int) else (x : Int) - 65536

/-! ## The sign test of `cmpl` -/

/-- The sign test of `cmpl`, `((int)registers[r2] - (int)registers[r1]) < 0`,
subtracts two `int` values.  When the difference does not fit in an `int` the
subtraction is undefined in C, and what the test yields depends on how the
program was built: a non-optimising gcc wraps the difference, gcc -O1 and -O2
fold the test to `r2 < r1`.  A `Build` says what the test yields in that case,
given the `int` operands `r2` and `r1`. -/
class Build where
  sign_test_on_overflow : Int → Int → Bool

/-- The build that wraps the difference to 32 bits (gcc -O0, gcc -fwrapv). -/
def wrapping_build : Build := ⟨fun b a => decide (toInt32 (u32 (b - a)) < 0)⟩

/-- The build that folds the test to `r2 < r1` (gcc -O1, gcc -O2). -/
def folding_build : Build := ⟨fun b a => decide (b < a)⟩

/-- The build closed examples are evaluated with. -/
instance default_build : Build := wrapping_build

/-- The sign test `((int)b - (int)a) < 0` on two register values: the sign of
the difference when it fits in an `int`, and what the build yields otherwise. -/
def sign_test [Build] (b a : Nat) : Bool :=
  if -2147483648 ≤ toInt32 b - toInt32 a ∧ toInt32 b - toInt32 a ≤ 2147483647 then
    decide (toInt32 b - toInt32 a < 0)
  else Build.sign_test_on_overflow (toInt32 b) (toInt32 a)

/-! ## Instructions -/

/-- Modelled from the spec: `instruction.h` (the declaration of `instruction_t`
and of the opcode enumeration) is not among the sources.  A decoded instruction
has an opcode, two register indices and a 16-bit immediate; the immediate is
kept as its 16-bit pattern and read as a signed value (`sext16`) wherever the
code uses it as an operand. -/
structure instruction_t where
  opcode : Nat
  first_register : Nat
  second_register : Nat
  immediate : Nat
deriving DecidableEq

/-- Modelled from the spec: the opcode enumeration of `instruction.h`, numbered
in the order of the glossary's opcode set (which is also the order of the
`switch` in `execute_instruction`). -/
abbrev subl : Nat := 0
/-- Modelled from the spec: opcode of add register-to-register. -/
abbrev addl_reg_reg : Nat := 1
/-- Modelled from the spec: opcode of add-immediate. -/
abbrev addl_imm_reg : Nat := 2
/-- Modelled from the spec: opcode of multiply register-to-register. -/
abbrev imull : Nat := 3
/-- Modelled from the spec: opcode of shift-right-by-one. -/
abbrev shrl : Nat := 4
/-- Modelled from the spec: opcode of move register-to-register. -/
abbrev movl_reg_reg : Nat := 5
/-- Modelled from the spec: opcode of move memory-to-register. -/
abbrev movl_deref_reg : Nat := 6
/-- Modelled from the spec: opcode of move register-to-memory. -/
abbrev movl_reg_deref : Nat := 7
/-- Modelled from the spec: opcode of move-immediate-to-register. -/
abbrev movl_imm_reg : Nat := 8
/-- Modelled from the spec: opcode of compare. -/
abbrev cmpl : Nat := 9
/-- Modelled from the spec: opcode of jump-if-equal. -/
abbrev je : Nat := 10
/-- Modelled from the spec: opcode of jump-if-less. -/
abbrev jl : Nat := 11
/-- Modelled from the spec: opcode of jump-if-less-or-equal. -/
abbrev jle : Nat := 12
/-- Modelled from the spec: opcode of jump-if-below-or-equal. -/
abbrev jbe : Nat := 13
/-- Modelled from the spec: opcode of jump-if-greater-or-equal. -/
abbrev jge : Nat := 14
/-- Modelled from the spec: opcode of jump-unconditional. -/
abbrev jmp : Nat := 15
/-- Modelled from the spec: opcode of call. -/
abbrev call : Nat := 16
/-- Modelled from the spec: opcode of return. -/
abbrev ret : Nat := 17
/-- Modelled from the spec: opcode of push. -/
abbrev pushl : Nat := 18
/-- Modelled from the spec: opcode of pop. -/
abbrev popl : Nat := 19
/-- Modelled from the spec: opcode of print-register. -/
abbrev printr : Nat := 20
/-- Modelled from the spec: opcode of read-register. -/
abbrev readr : Nat := 21

/-! ## Decoder -/

/-- The body of the loop of `decode_instructions` for one word: `int instr =
bytes[i]`, then the four fields are cut out with an arithmetic shift and a
mask. -/
def decode_word (w : Nat) : instruction_t :=
  let instr : Int := toInt32 w
  { opcode := (Int.land (Int.shiftRight instr 27) 0x1F).toNat
    first_register := (Int.land (Int.shiftRight instr 22) 0x1F).toNat
    second_register := (Int.land (Int.shiftRight instr 17) 0x1F).toNat
    immediate := (Int.land instr 0xFFFF).toNat }

/-- The decoder `decode_instructions`: one record per raw word, in order. -/
def decode_instructions : List Nat → List instruction_t
  | [] => []
  | w :: ws => decode_word w :: decode_instructions ws

/-- Bits `lo .. lo + len - 1` of a word, as a number. -/
def bitField (w lo len : Nat) : Nat := (w / 2 ^ lo) % 2 ^ len

/-- Field composition: the word `(op << 27) | (r1 << 22) | (r2 << 17) |
(imm & 0xFFFF)`. -/
def encode_fields (op r1 r2 imm : Nat) : Nat :=
  (op <<< 27) ||| (r1 <<< 22) ||| (r2 <<< 17) ||| (imm &&& 0xFFFF)

/-! ## Machine state -/

/-- Number of registers (`#define NUM_REGS 17`). -/
def NUM_REGS : Nat := 17

/-- Size of the stack memory in bytes (`#define STACK_SIZE 1024`). -/
def STACK_SIZE : Nat := 1024

/-- The mutable state the executor works on: the register file, the byte
memory, and the two streams of the process (what `printf` has written so far,
and the decimal integers `scanf` has still to read). -/
structure Machine where
  registers : Nat → Nat
  memory : Nat → Nat
  output : List String
  input : List Int

/-- Every register holds a 32-bit value and every memory cell a byte. -/
def Machine.WF (m : Machine) : Prop :=
  (∀ i, i < NUM_REGS → m.registers i < 4294967296) ∧
  (∀ a, a < STACK_SIZE → m.memory a < 256)

/-- Assignment `registers[i] = v`. -/
def setReg (regs : Nat → Nat) (i v : Nat) : Nat → Nat :=
  fun j => if j = i then v else regs j

/-- The 4 bytes `memory[a .. a+3]` copied into an `unsigned int`. -/
def read4 (mem : Nat → Nat) (a : Nat) : Nat :=
  mem a + 256 * mem (a + 1) + 65536 * mem (a + 2) + 16777216 * mem (a + 3)

/-- The 4 bytes of the `unsigned int` `v` copied to `memory[a .. a+3]`. -/
def write4 (mem : Nat → Nat) (a v : Nat) : Nat → Nat :=
  fun i =>
    if i = a then v % 256
    else if i = a + 1 then v / 256 % 256
    else if i = a + 2 then v / 65536 % 256
    else if i = a + 3 then v / 16777216 % 256
    else mem i

/-- The text `printf("%d (0x%x)\n", v, v)` writes for a register value `v`. -/
def print_line (v : Nat) : String :=
  toString (toInt32 v) ++ " (0x" ++ String.mk (Nat.toDigits 16 v) ++ ")\n"

/-- What one call of `execute_instruction` does. -/
inductive Outcome where
  /-- The call returns the next program counter. -/
  | next (program_counter : Nat) (m : Machine)
  /-- The call ends the process with `exit(status)`. -/
  | exit (status : Nat) (m : Machine)
  /-- The call reads or writes outside an array. -/
  | undefined

/-- The `cmpl` case: `registers[0]` is cleared, then the four tests are made
one after the other on the register file as it is at that point. -/
def cmpl_flags [Build] (regs : Nat → Nat) (r1 r2 : Nat) : Nat → Nat :=
  let regs := setReg regs 0 0
  let regs :=
    if regs r2 < regs r1 then setReg regs 0 (regs 0 ||| (1 <<< 0)) else regs
  let regs :=
    if u32 ((regs r2 : Int) - (regs r1 : Int)) = 0 then setReg regs 0 (regs 0 ||| (1 <<< 6))
    else regs
  let regs :=
    if sign_test (regs r2) (regs r1) = true then setReg regs 0 (regs 0 ||| (1 <<< 7))
    else regs
  let regs :=
    if toInt32 (regs r2) - toInt32 (regs r1) > 2147483647 ∨
        toInt32 (regs r2) - toInt32 (regs r1) < -2147483648 then
      setReg regs 0 (regs 0 ||| (1 <<< 11))
    else regs
  regs

/-! ## Executor -/

/-- The step function `execute_instruction`: fetch the instruction at
`program_counter / 4`, apply it to the registers and the memory, and return the
next program counter.  The cases follow the `switch` of the source in order; an
opcode that matches no case falls through to `return program_counter + 4`. -/
def execute_instruction [Build] (program_counter : Nat) (instructions : List instruction_t)
    (m : Machine) : Outcome :=
  match instructions[program_counter / 4]? with
  | none => Outcome.undefined
  | some instr =>
    let regs := m.registers
    let r1 := instr.first_register
    let r2 := instr.second_register
    let imm := sext16 instr.immediate
    let fall := wrap32 (program_counter + 4)
    let target := u32 ((program_counter : Int) + 4 + imm)
    if instr.opcode = subl then
      if r1 < NUM_REGS then
        Outcome.next fall { m with registers := setReg regs r1 (u32 ((regs r1 : Int) - imm)) }
      else Outcome.undefined
    else if instr.opcode = addl_reg_reg then
      if r1 < NUM_REGS ∧ r2 < NUM_REGS then
        Outcome.next fall { m with registers := setReg regs r2 (wrap32 (regs r1 + regs r2)) }
      else Outcome.undefined
    else if instr.opcode = addl_imm_reg then
      if r1 < NUM_REGS then
        Outcome.next fall { m with registers := setReg regs r1 (u32 ((regs r1 : Int) + imm)) }
      else Outcome.undefined
    else if instr.opcode = imull then
      if r1 < NUM_REGS ∧ r2 < NUM_REGS then
        Outcome.next fall { m with registers := setReg regs r2 (wrap32 (regs r1 * regs r2)) }
      else Outcome.undefined
    else if instr.opcode = shrl then
      if r1 < NUM_REGS then
        Outcome.next fall { m with registers := setReg regs r1 (regs r1 >>> 1) }
      else Outcome.undefined
    else if instr.opcode = movl_reg_reg then
      if r1 < NUM_REGS ∧ r2 < NUM_REGS then
        Outcome.next fall { m with registers := setReg regs r2 (regs r1) }
      else Outcome.undefined
    else if instr.opcode = movl_deref_reg then
      let addr : Int := (regs r1 : Int) + imm
      if r1 < NUM_REGS ∧ r2 < NUM_REGS ∧ 0 ≤ addr ∧ addr + 4 ≤ (STACK_SIZE : Int) then
        Outcome.next fall { m with registers := setReg regs r2 (read4 m.memory addr.toNat) }
      else Outcome.undefined
    else if instr.opcode = movl_reg_deref then
      let addr : Int := (regs r2 : Int) + imm
      if r1 < NUM_REGS ∧ r2 < NUM_REGS ∧ 0 ≤ addr ∧ addr + 4 ≤ (STACK_SIZE : Int) then
        Outcome.next fall { m with memory := write4 m.memory addr.toNat (regs r1) }
      else Outcome.undefined
    else if instr.opcode = movl_imm_reg then
      if r1 < NUM_REGS then
        Outcome.next fall { m with registers := setReg regs r1 (u32 imm) }
      else Outcome.undefined
    else if instr.opcode = cmpl then
      if r1 < NUM_REGS ∧ r2 < NUM_REGS then
        Outcome.next fall { m with registers := cmpl_flags regs r1 r2 }
      else Outcome.undefined
    else if instr.opcode = je then
      if (regs 0 >>> 6) &&& 1 ≠ 0 then Outcome.next target m else Outcome.next fall m
    else if instr.opcode = jl then
      if ((regs 0 >>> 7) &&& 1) ^^^ ((regs 0 >>> 11) &&& 1) ≠ 0 then Outcome.next target m
      else Outcome.next fall m
    else if instr.opcode = jle then
      if (((regs 0 >>> 7) &&& 1) ^^^ ((regs 0 >>> 11) &&& 1)) ||| ((regs 0 >>> 6) &&& 1) ≠ 0 then
        Outcome.next target m
      else Outcome.next fall m
    else if instr.opcode = jbe then
      if ((regs 0 >>> 0) &&& 1) ||| ((regs 0 >>> 6) &&& 1) ≠ 0 then Outcome.next target m
      else Outcome.next fall m
    else if instr.opcode = jge then
      if ((regs 0 >>> 7) &&& 1) ^^^ ((regs 0 >>> 11) &&& 1) = 0 then Outcome.next target m
      else Outcome.next fall m
    else if instr.opcode = jmp then
      Outcome.next target m
    else if instr.opcode = call then
      let sp := u32 ((regs 8 : Int) - 4)
      if sp + 4 ≤ STACK_SIZE then
        Outcome.next target
          { m with registers := setReg regs 8 sp, memory := write4 m.memory sp fall }
      else Outcome.undefined
    else if instr.opcode = ret then
      if regs 8 = 1024 then Outcome.exit 0 m
      else if regs 8 + 4 ≤ STACK_SIZE then
        Outcome.next (read4 m.memory (regs 8))
          { m with registers := setReg regs 8 (wrap32 (regs 8 + 4)) }
      else Outcome.undefined
    else if instr.opcode = pushl then
      let regs := setReg regs 8 (u32 ((regs 8 : Int) - 4))
      if r1 < NUM_REGS ∧ regs 8 + 4 ≤ STACK_SIZE then
        Outcome.next fall { m with registers := regs, memory := write4 m.memory (regs 8) (regs r1) }
      else Outcome.undefined
    else if instr.opcode = popl then
      if r1 < NUM_REGS ∧ regs 8 + 4 ≤ STACK_SIZE then
        let regs := setReg regs r1 (read4 m.memory (regs 8))
        Outcome.next fall { m with registers := setReg regs 8 (wrap32 (regs 8 + 4)) }
      else Outcome.undefined
    else if instr.opcode = printr then
      if r1 < NUM_REGS then
        Outcome.next fall { m with output := m.output ++ [print_line (regs r1)] }
      else Outcome.undefined
    else if instr.opcode = readr then
      if r1 < NUM_REGS then
        match m.input with
        | [] => Outcome.next fall m
        | v :: rest => Outcome.next fall { m with registers := setReg regs r1 (u32 v), input := rest }
      else Outcome.undefined
    else Outcome.next fall m

/-- The state the `pushl` case leaves: `registers[8] -= 4`, then the 4 bytes of
`registers[r]` are copied to `memory + registers[8]`. -/
def pushl_state (m : Machine) (r : Nat) : Machine :=
  let regs := setReg m.registers 8 (u32 ((m.registers 8 : Int) - 4))
  { m with registers := regs, memory := write4 m.memory (regs 8) (regs r) }

/-- The state the `popl` case leaves: 4 bytes are copied from
`memory + registers[8]` into `registers[r]`, then `registers[8] += 4`. -/
def popl_state (m : Machine) (r : Nat) : Machine :=
  let regs := setReg m.registers r (read4 m.memory (m.registers 8))
  { m with registers := setReg regs 8 (wrap32 (regs 8 + 4)) }

/-- The state the `call` case leaves when called at `program_counter`:
`registers[8] -= 4`, then the return address is copied to
`memory + registers[8]`. -/
def call_state (m : Machine) (program_counter : Nat) : Machine :=
  let sp := u32 ((m.registers 8 : Int) - 4)
  { m with registers := setReg m.registers 8 sp
           memory := write4 m.memory sp (wrap32 (program_counter + 4)) }

/-- The state the `ret` case leaves when the stack is not empty:
`registers[8] += 4`. -/
def ret_state (m : Machine) : Machine :=
  { m with registers := setReg m.registers 8 (wrap32 (m.registers 8 + 4)) }

/-! ## Fetch/execute loop -/

/-- How a run of the fetch/execute loop stands after a number of steps. -/
inductive RunResult where
  /-- The program counter reached `num_instructions * 4`: the loop is left and
  `main` returns 0. -/
  | returned (program_counter : Nat) (m : Machine)
  /-- An instruction ended the process with `exit(status)`. -/
  | exited (status : Nat) (m : Machine)
  /-- An instruction read or wrote outside an array. -/
  | undefined
  /-- The loop is still running after the allowed number of steps. -/
  | running (program_counter : Nat) (m : Machine)

/-- A run of the loop: the indices of the instructions fetched, in order, and
how the run stands at the end. -/
structure Run where
  fetched : List Nat
  result : RunResult

/-- The loop `while(program_counter != num_instructions * 4) program_counter =
execute_instruction(...)` of `main`, allowed at most `fuel` calls of
`execute_instruction`; `fetched` collects the index of every instruction
fetched so far. -/
def main_loop [Build] (instructions : List instruction_t) :
    Nat → Nat → Machine → List Nat → Run
  | 0, program_counter, m, fetched =>
    if program_counter = wrap32 (instructions.length * 4) then
      ⟨fetched, RunResult.returned program_counter m⟩
    else ⟨fetched, RunResult.running program_counter m⟩
  | fuel + 1, program_counter, m, fetched =>
    if program_counter = wrap32 (instructions.length * 4) then
      ⟨fetched, RunResult.returned program_counter m⟩
    else
      match execute_instruction program_counter instructions m with
      | Outcome.next pc m1 =>
        main_loop instructions fuel pc m1 (fetched ++ [program_counter / 4])
      | Outcome.exit status m1 =>
        ⟨fetched ++ [program_counter / 4], RunResult.exited status m1⟩
      | Outcome.undefined => ⟨fetched ++ [program_counter / 4], RunResult.undefined⟩

/-- The state `main` starts the loop in: every register 0 except
`registers[8] = 1024`; `memory` comes from `malloc` and holds whatever bytes
`memory` is given; nothing written yet. -/
def initial_machine (memory : Nat → Nat) (input : List Int) : Machine :=
  { registers := setReg (fun _ => 0) 8 1024
    memory := memory
    output := []
    input := input }

/-- The core of `main`: decode the raw words, set up the registers and run the
loop from program counter 0. -/
def main [Build] (fuel : Nat) (bytes : List Nat) (memory : Nat → Nat) (input : List Int) : Run :=
  main_loop (decode_instructions bytes) fuel 0 (initial_machine memory input) []

/-! ## Reading of the flags and example states -/

/-- The flag word with only bit `bit` set when `p` holds, and 0 otherwise. -/
def flag (bit : Nat) (p : Prop) [Decidable p] : Nat := if p then 2 ^ bit else 0

/-- A machine with zeroed memory and no input whose registers are `regs`. -/
def machine_of (regs : Nat → Nat) : Machine :=
  { registers := regs, memory := fun _ => 0, output := [], input := [] }

/-- Example state: `registers[1] = 0x80000000` (`INT32_MIN`), `registers[2] = 1`,
stack pointer 1024. -/
def overflow_machine : Machine :=
  machine_of (setReg (setReg (setReg (fun _ => 0) 8 1024) 1 2147483648) 2 1)

/-- Example program: `cmpl r1, r2` followed by `jl`, `jbe` with displacement 8. -/
def compare_program : List instruction_t :=
  [⟨cmpl, 1, 2, 0⟩, ⟨jl, 0, 0, 8⟩, ⟨jbe, 0, 0, 8⟩]

/-- The state `cmpl r1, r2` leaves `overflow_machine` in when the build folds the
sign test to `r2 < r1`. -/
def overflow_folded : Machine :=
  { overflow_machine with
    registers := @cmpl_flags folding_build overflow_machine.registers 1 2 }

/-- The state `cmpl r1, r2` leaves `overflow_machine` in when the build wraps the
difference of the sign test to 32 bits. -/
def overflow_wrapped : Machine :=
  { overflow_machine with
    registers := @cmpl_flags wrapping_build overflow_machine.registers 1 2 }

/-- Example state: `registers[1] = 5`, `registers[2] = 0xFFFFFFFE` (`-2`), stack
pointer 1024. -/
def negative_machine : Machine :=
  machine_of (setReg (setReg (setReg (fun _ => 0) 8 1024) 1 5) 2 4294967294)

/-- Example program: `cmpl r1, r2` followed by `jle` and `jge` with displacement 8. -/
def signed_compare_program : List instruction_t :=
  [⟨cmpl, 1, 2, 0⟩, ⟨jle, 0, 0, 8⟩, ⟨jge, 0, 0, 8⟩]

/-- Example program: `cmpl r1, r2` followed by `jl` and `jbe` with displacement 0. -/
def zero_jump_program : List instruction_t :=
  [⟨cmpl, 1, 2, 0⟩, ⟨jl, 0, 0, 0⟩, ⟨jbe, 0, 0, 0⟩]

/-- Example state: `registers[1] = 0`, `registers[2] = 1`, stack pointer 1024. -/
def above_machine : Machine :=
  machine_of (setReg (setReg (fun _ => 0) 8 1024) 2 1)

/-- The state `cmpl r1, r2` leaves `above_machine` in. -/
def above_compared : Machine :=
  { above_machine with registers := cmpl_flags above_machine.registers 1 2 }

/-- Example program: `pushl r2` followed by `popl r2`. -/
def push_pop_program : List instruction_t :=
  [⟨pushl, 2, 0, 0⟩, ⟨popl, 2, 0, 0⟩]

/-- Example program: `call` with displacement 4 at address 0, `ret` at address 8. -/
def call_ret_program : List instruction_t :=
  [⟨call, 0, 0, 4⟩, ⟨0, 0, 0, 0⟩, ⟨ret, 0, 0, 0⟩]

/-- Example program: a single `ret`. -/
def ret_program : List instruction_t := [⟨ret, 0, 0, 0⟩]

/-- Example state: stack pointer 1022, two bytes below the end of `memory`. -/
def stray_machine : Machine := machine_of (setReg (fun _ => 0) 8 1022)

/-- Example state: stack pointer 1020, with the bytes of 8 on top of the stack. -/
def one_frame_machine : Machine :=
  { machine_of (setReg (fun _ => 0) 8 1020) with memory := write4 (fun _ => 0) 1020 8 }

/-- The example program of the specification: `movl_imm_reg r1, 5;
movl_imm_reg r2, 3; addl_reg_reg r1, r2; printr r2; ret`.  The fields an
instruction does not use are arbitrary; `unused k` supplies them. -/
def example_program (unused : Nat → Nat) : List instruction_t :=
  [⟨movl_imm_reg, 1, unused 0, 5⟩, ⟨movl_imm_reg, 2, unused 1, 3⟩,
    ⟨addl_reg_reg, 1, 2, unused 2⟩, ⟨printr, 2, unused 3, unused 4⟩,
    ⟨ret, unused 5, unused 6, unused 7⟩]

/-! ## Opcode classes and the jump predicates of the specification -/

/-- The 22 opcodes `execute_instruction` has a case for. -/
def defined_opcodes : List Nat :=
  [subl, addl_reg_reg, addl_imm_reg, imull, shrl, movl_reg_reg, movl_deref_reg,
    movl_reg_deref, movl_imm_reg, cmpl, je, jl, jle, jbe, jge, jmp, call, ret, pushl, popl,
    printr, readr]

/-- The conditional and unconditional jumps. -/
def jump_opcodes : List Nat := [je, jl, jle, jbe, jge, jmp]

/-- The control transfers: the jumps, `call` and `ret`. -/
def control_opcodes : List Nat := [je, jl, jle, jbe, jge, jmp, call, ret]

/-- The opcodes that move the stack pointer by themselves. -/
def stack_opcodes : List Nat := [call, ret, pushl, popl]

/-- The jump predicates in the words of the specification, on the flags carry
(bit 0), zero (bit 6), sign (bit 7) and overflow (bit 11): `je` - zero; `jl` -
sign XOR overflow; `jle` - (sign XOR overflow) OR zero; `jbe` - carry OR zero;
`jge` - NOT (sign XOR overflow); `jmp` - always. -/
def jump_predicate (opcode : Nat) (carry zero sign overflow : Bool) : Bool :=
  if opcode = je then zero
  else if opcode = jl then (sign != overflow)
  else if opcode = jle then ((sign != overflow) || zero)
  else if opcode = jbe then (carry || zero)
  else if opcode = jge then !(sign != overflow)
  else true

/-- Example program: the six jumps, each with displacement 8. -/
def jump_program : List instruction_t :=
  [⟨je, 0, 0, 8⟩, ⟨jl, 0, 0, 8⟩, ⟨jle, 0, 0, 8⟩, ⟨jbe, 0, 0, 8⟩, ⟨jge, 0, 0, 8⟩,
    ⟨jmp, 0, 0, 8⟩]

/-- Example state: register 0 holds the flags `0x881` (carry, sign, overflow). -/
def flags_machine : Machine := machine_of (setReg (setReg (fun _ => 0) 8 1024) 0 2177)

/-- Example program: `movl_imm_reg r1, 0xFFFF; subl r1, 0xFFFF; addl_imm_reg r1, 0x8000`. -/
def immediate_program : List instruction_t :=
  [⟨movl_imm_reg, 1, 0, 65535⟩, ⟨subl, 1, 0, 65535⟩, ⟨addl_imm_reg, 1, 0, 32768⟩]

/-- Example state: every register 0 (stack pointer 0), zeroed memory. -/
def zero_machine : Machine := machine_of (fun _ => 0)

/-- The register an instruction assigns, read off the cases of
`execute_instruction`: `first_register` for `subl`, `addl_imm_reg`, `shrl`,
`movl_imm_reg`, `readr`; `second_register` for `addl_reg_reg`, `imull`,
`movl_reg_reg`, `movl_deref_reg`; register 0 for `cmpl`; register 8 for `call`,
`ret`, `pushl`, `popl` (`popl` assigns `first_register` as well); none for the
jumps, `movl_reg_deref`, `printr` and an opcode without a case. -/
def destination_register (instr : instruction_t) : Option Nat :=
  if instr.opcode ∈ [subl, addl_imm_reg, shrl, movl_imm_reg, readr] then
    some instr.first_register
  else if instr.opcode ∈ [addl_reg_reg, imull, movl_reg_reg, movl_deref_reg] then
    some instr.second_register
  else if instr.opcode = cmpl then some 0
  else if instr.opcode ∈ stack_opcodes then some 8
  else none

/-- Example state: `registers[0] = 5`, `registers[1] = 3`, stack pointer 1024. -/
def flag_operand_machine : Machine :=
  machine_of (setReg (setReg (setReg (fun _ => 0) 8 1024) 0 5) 1 3)

/-- Example program: `cmpl` with the flags register as its first operand, then
`movl_imm_reg r8, 5`, then `cmpl` with the flags register as its second
operand. -/
def flag_operand_program : List instruction_t :=
  [⟨cmpl, 0, 1, 0⟩, ⟨movl_imm_reg, 8, 0, 5⟩, ⟨cmpl, 1, 0, 0⟩]

/-- Example state: `registers[0] = 7`, `registers[1] = 1`, stack pointer 1024. -/
def alias_machine : Machine :=
  machine_of (setReg (setReg (setReg (fun _ => 0) 8 1024) 0 7) 1 1)

/-- Whether a jump is taken when register 0 holds `f`: its predicate on bits 0,
6, 7 and 11 of `f`. -/
def jump_taken (opcode f : Nat) : Bool :=
  jump_predicate opcode (f.testBit 0) (f.testBit 6) (f.testBit 7) (f.testBit 11)

/-- Example raw program: one word whose opcode field is 31. -/
def unknown_bytes : List Nat := [4160749568]

/-- Example program: `movl_reg_deref r1, 8(r3)` then `movl_deref_reg 8(r3), r2`. -/
def store_load_program : List instruction_t :=
  [⟨movl_reg_deref, 1, 3, 8⟩, ⟨movl_deref_reg, 3, 2, 8⟩]

/-- Example state: `registers[1] = 0x12345678`, `registers[3] = 100`, stack
pointer 1024. -/
def store_machine : Machine :=
  machine_of (setReg (setReg (setReg (fun _ => 0) 8 1024) 1 305419896) 3 100)

/-- The opcodes that read or write `memory` and are not control transfers. -/
def memory_opcodes : List Nat := [movl_deref_reg, movl_reg_deref, pushl, popl]

/-- Example program without control transfers whose second instruction stores
through the address `0xFFFFFFFF`: `movl_imm_reg r1, 0xFFFF; movl_reg_deref r1,
0(r1)`. -/
def stray_store_program : List instruction_t :=
  [⟨movl_imm_reg, 1, 0, 65535⟩, ⟨movl_reg_deref, 1, 1, 0⟩]

/-- Example program without control transfers and without memory accesses:
`movl_imm_reg r1, 5; addl_imm_reg r1, 3; printr r1`. -/
def straight_program : List instruction_t :=
  [⟨movl_imm_reg, 1, 0, 5⟩, ⟨addl_imm_reg, 1, 0, 3⟩, ⟨printr, 1, 0, 0⟩]

/-- Example program: a single `jmp` with displacement 1. -/
def odd_jump_program : List instruction_t := [⟨jmp, 0, 0, 1⟩]

/-- Example program: `movl_imm_reg r1, 6; pushl r1; ret`. -/
def pushed_return_program : List instruction_t :=
  [⟨movl_imm_reg, 1, 0, 6⟩, ⟨pushl, 1, 0, 0⟩, ⟨ret, 0, 0, 0⟩]

/-- The address a jump or call at instruction index `i` with immediate `imm`
transfers to, as an integer: the address of the next instruction plus the
sign-extended immediate. -/
def transfer_target (i imm : Nat) : Int := 4 * ((i : Int) + 1) + sext16 imm

/-- The program counter of a run that has not ended by `exit` or by an
out-of-bounds access. -/
def RunResult.program_counter : RunResult → Option Nat
  | RunResult.returned pc _ => some pc
  | RunResult.running pc _ => some pc
  | RunResult.exited _ _ => none
  | RunResult.undefined => none

/-! ## Auxiliary facts on machine integers -/

theorem ldiff_mask (j n : Nat) : Nat.ldiff (2 ^ j - 1) n = 2 ^ j - (n % 2 ^ j + 1) := by
  apply Nat.eq_of_testBit_eq
  intro i
  have h : n % 2 ^ j < 2 ^ j := Nat.mod_lt _ (by positivity)
  rw [Nat.testBit_ldiff, Nat.testBit_two_pow_sub_one, Nat.testBit_two_pow_sub_succ h,
    Nat.testBit_mod_two_pow]
  cases decide (i < j) <;> simp

/-- Masking a two's-complement integer with `2^j - 1` keeps its residue modulo
`2^j`. -/
theorem int_land_mask (x : Int) (j : Nat) :
    Int.land x ((2 ^ j - 1 : Nat) : Int) = x % ((2 ^ j : Nat) : Int) := by
  have hpos : 0 < 2 ^ j := by positivity
  cases x with
  | ofNat n =>
    show ((n &&& (2 ^ j - 1) : Nat) : Int) = _
    rw [Nat.and_pow_two_sub_one_eq_mod]
    simp
  | negSucc n =>
    show ((Nat.ldiff (2 ^ j - 1) n : Nat) : Int) = _
    rw [ldiff_mask, Int.negSucc_emod _ (by exact_mod_cast hpos)]
    have h : n % 2 ^ j < 2 ^ j := Nat.mod_lt _ hpos
    generalize 2 ^ j = p at *
    rw [← Int.natCast_mod]
    generalize n % p = r at *
    omega

theorem int_land_31 (x : Int) : Int.land x 0x1F = x % 32 := by
  simpa using int_land_mask x 5

theorem int_land_65535 (x : Int) : Int.land x 0xFFFF = x % 65536 := by
  simpa using int_land_mask x 16

theorem int_shiftRight_eq (x : Int) (k : Nat) :
    Int.shiftRight x k = x / ((2 ^ k : Nat) : Int) :=
  Int.shiftRight_eq_div_pow x k

/-- The decoder in terms of the unsigned word: each field is a bit field of
the word. -/
theorem decode_word_eq (w : Nat) (hw : w < 4294967296) :
    decode_word w =
      { opcode := bitField w 27 5
        first_register := bitField w 22 5
        second_register := bitField w 17 5
        immediate := bitField w 0 16 } := by
  simp only [decode_word, bitField, int_land_31, int_land_65535, int_shiftRight_eq, toInt32]
  split
  · norm_num
    omega
  · norm_num
    omega

theorem decode_instructions_eq_map (bytes : List Nat) :
    decode_instructions bytes = bytes.map decode_word := by
  induction bytes with
  | nil => rfl
  | cons w ws ih => simp [decode_instructions, ih]

/-- The composed word as a sum: the four fields do not overlap. -/
theorem encode_fields_eq (op r1 r2 imm : Nat) (h1 : r1 < 32) (h2 : r2 < 32)
    (himm : imm < 65536) :
    encode_fields op r1 r2 imm = op * 134217728 + r1 * 4194304 + r2 * 131072 + imm := by
  have e1 : op <<< 27 ||| r1 <<< 22 = 2 ^ 22 * (32 * op + r1) := by
    have := Nat.mul_add_lt_is_or (i := 27) (b := r1 <<< 22) (by rw [Nat.shiftLeft_eq]; omega) op
    rw [Nat.shiftLeft_eq, Nat.shiftLeft_eq] at *
    rw [Nat.mul_comm op, ← this]
    omega
  have e2 : 2 ^ 22 * (32 * op + r1) ||| r2 <<< 17 = 2 ^ 17 * (32 * (32 * op + r1) + r2) := by
    have := Nat.mul_add_lt_is_or (i := 22) (b := r2 <<< 17) (by rw [Nat.shiftLeft_eq]; omega)
      (32 * op + r1)
    rw [Nat.shiftLeft_eq] at *
    rw [← this]
    omega
  have e3 : imm &&& 0xFFFF = imm := by
    have := Nat.and_pow_two_sub_one_eq_mod imm 16
    norm_num at this
    rw [this]
    omega
  rw [encode_fields, e1, e2, e3, ← Nat.mul_add_lt_is_or (by omega)]
  omega

/-- Every field the decoder produces fits its width. -/
theorem decode_word_bounds (w : Nat) (hw : w < 4294967296) :
    (decode_word w).opcode < 32 ∧ (decode_word w).first_register < 32 ∧
      (decode_word w).second_register < 32 ∧ (decode_word w).immediate < 65536 := by
  rw [decode_word_eq w hw]
  simp only [bitField]
  omega

/-! ## Decoder theorems -/

/-- C1: for every sequence of N raw 32-bit words, `decode_instructions` returns
exactly N records in the same order, and the record at index `i` has opcode =
bits 31..27, first_register = bits 26..22, second_register = bits 21..17 and
immediate = bits 15..0 of word `i`; being a function of `bytes` alone, the
result depends on nothing else. -/
theorem decode_instructions_fields (bytes : List Nat)
    (hbytes : ∀ w ∈ bytes, w < 4294967296) :
    (decode_instructions bytes).length = bytes.length ∧
      ∀ (i w : Nat), bytes[i]? = some w →
        (decode_instructions bytes)[i]? =
          some (instruction_t.mk (bitField w 27 5) (bitField w 22 5) (bitField w 17 5)
            (bitField w 0 16)) := by
  rw [decode_instructions_eq_map]
  refine ⟨by simp, ?_⟩
  intro i w hi
  have hmem : w ∈ bytes := List.getElem?_mem hi
  rw [List.getElem?_map, hi, Option.map_some', decode_word_eq w (hbytes w hmem)]

/-- Witness for C1 on two words, one of them with the top bit set. -/
theorem decode_instructions_fields_witness :
    (∀ w ∈ [1078984709, 4294967295], w < 4294967296) ∧
      ((decode_instructions [1078984709, 4294967295]).length = 2 ∧
        ∀ (i w : Nat), [1078984709, 4294967295][i]? = some w →
          (decode_instructions [1078984709, 4294967295])[i]? =
            some (instruction_t.mk (bitField w 27 5) (bitField w 22 5) (bitField w 17 5)
              (bitField w 0 16))) :=
  ⟨by decide, decode_instructions_fields [1078984709, 4294967295] (by decide)⟩

/-- C2: decode undoes field composition.  For `op, r1, r2 < 32` and a 16-bit
`imm`, decoding `(op << 27) | (r1 << 22) | (r2 << 17) | (imm & 0xFFFF)` gives
exactly the fields `(op, r1, r2, imm)`; consequently, for every 32-bit word
`w`, composing the decoded fields of `w` and decoding again gives the fields
of `w`. -/
theorem decode_encode_fields :
    (∀ op r1 r2 imm : Nat, op < 32 → r1 < 32 → r2 < 32 → imm < 65536 →
        decode_word (encode_fields op r1 r2 imm) =
          { opcode := op, first_register := r1, second_register := r2, immediate := imm }) ∧
      ∀ w : Nat, w < 4294967296 →
        decode_word
            (encode_fields (decode_word w).opcode (decode_word w).first_register
              (decode_word w).second_register (decode_word w).immediate) =
          decode_word w := by
  have key : ∀ op r1 r2 imm : Nat, op < 32 → r1 < 32 → r2 < 32 → imm < 65536 →
      decode_word (encode_fields op r1 r2 imm) =
        { opcode := op, first_register := r1, second_register := r2, immediate := imm } := by
    intro op r1 r2 imm hop h1 h2 himm
    have he := encode_fields_eq op r1 r2 imm h1 h2 himm
    rw [decode_word_eq _ (by omega), he]
    simp only [bitField]
    congr 1 <;> omega
  refine ⟨key, ?_⟩
  intro w hw
  obtain ⟨h0, h1, h2, h3⟩ := decode_word_bounds w hw
  exact key _ _ _ _ h0 h1 h2 h3

/-- Witness for C2: the fields `(9, 1, 2, 65535)` and the word `0xFFFFFFFF`. -/
theorem decode_encode_fields_witness :
    (9 < 32 ∧ 1 < 32 ∧ 2 < 32 ∧ 65535 < 65536 ∧
        decode_word (encode_fields 9 1 2 65535) =
          { opcode := 9, first_register := 1, second_register := 2, immediate := 65535 }) ∧
      (4294967295 < 4294967296 ∧
        decode_word
            (encode_fields (decode_word 4294967295).opcode
              (decode_word 4294967295).first_register
              (decode_word 4294967295).second_register (decode_word 4294967295).immediate) =
          decode_word 4294967295) :=
  ⟨⟨by decide, by decide, by decide, by decide,
      decode_encode_fields.1 9 1 2 65535 (by decide) (by decide) (by decide) (by decide)⟩,
    by decide, decode_encode_fields.2 4294967295 (by decide)⟩

/-! ## Compare and conditional jumps -/

theorem setReg_same (regs : Nat → Nat) (i v : Nat) : setReg regs i v i = v := by
  simp [setReg]

theorem setReg_other (regs : Nat → Nat) (i v j : Nat) (h : j ≠ i) :
    setReg regs i v j = regs j := by
  simp [setReg, h]

theorem flag_step_other (g : Nat → Nat) (c : Prop) [Decidable c] (v j : Nat) (hj : j ≠ 0) :
    (if c then setReg g 0 v else g) j = g j := by
  split_ifs
  · exact setReg_other g 0 v j hj
  · rfl

theorem flag_step_zero (g : Nat → Nat) (c : Prop) [Decidable c] (v : Nat) :
    (if c then setReg g 0 v else g) 0 = if c then v else g 0 := by
  split_ifs
  · exact setReg_same g 0 v
  · rfl

/-- The flags `cmpl` leaves in register 0 when neither operand is register 0. -/
theorem cmpl_flags_zero [Build] (regs : Nat → Nat) (r1 r2 : Nat) (h1 : r1 ≠ 0) (h2 : r2 ≠ 0) :
    cmpl_flags regs r1 r2 0 =
      flag 0 (regs r2 < regs r1) |||
        flag 6 (u32 ((regs r2 : Int) - (regs r1 : Int)) = 0) |||
        flag 7 (sign_test (regs r2) (regs r1) = true) |||
        flag 11 (toInt32 (regs r2) - toInt32 (regs r1) > 2147483647 ∨
          toInt32 (regs r2) - toInt32 (regs r1) < -2147483648) := by
  have e1 := fun g c (i : Decidable c) v => flag_step_other g c v r1 h1
  have e2 := fun g c (i : Decidable c) v => flag_step_other g c v r2 h2
  simp only [cmpl_flags, e1, e2, setReg_other _ 0 _ _ h1, setReg_other _ 0 _ _ h2,
    flag_step_zero, setReg_same, flag]
  split_ifs <;> rfl

theorem cmpl_flags_other [Build] (regs : Nat → Nat) (r1 r2 j : Nat) (hj : j ≠ 0) :
    cmpl_flags regs r1 r2 j = regs j := by
  have e := fun g c (i : Decidable c) v => flag_step_other g c v j hj
  simp only [cmpl_flags, e, setReg_other _ 0 _ _ hj]

/-- Reading single bits of a flag word built from the four flags. -/
theorem flags_bits (c z s o : Prop) [Decidable c] [Decidable z] [Decidable s] [Decidable o] :
    ((flag 0 c ||| flag 6 z ||| flag 7 s ||| flag 11 o) >>> 0) &&& 1 = (if c then 1 else 0) ∧
    ((flag 0 c ||| flag 6 z ||| flag 7 s ||| flag 11 o) >>> 6) &&& 1 = (if z then 1 else 0) ∧
    ((flag 0 c ||| flag 6 z ||| flag 7 s ||| flag 11 o) >>> 7) &&& 1 = (if s then 1 else 0) ∧
    ((flag 0 c ||| flag 6 z ||| flag 7 s ||| flag 11 o) >>> 11) &&& 1 = (if o then 1 else 0) := by
  by_cases hc : c <;> by_cases hz : z <;> by_cases hs : s <;> by_cases ho : o <;>
    simp only [flag, hc, hz, hs, ho, if_true, if_false] <;> decide

/-- When the signed difference fits in an `int`, sign XOR overflow is the signed
comparison, whatever the build. -/
theorem signed_lt_iff [Build] (a b : Nat)
    (hfit : -2147483648 ≤ toInt32 b - toInt32 a ∧ toInt32 b - toInt32 a ≤ 2147483647) :
    (toInt32 b < toInt32 a) ↔
      ¬ ((sign_test b a = true) ↔
        (toInt32 b - toInt32 a > 2147483647 ∨ toInt32 b - toInt32 a < -2147483648)) := by
  simp only [sign_test, if_pos hfit, decide_eq_true_eq]
  omega

/-- When the signed difference fits in an `int`, the sign test yields the sign
of the wrapped unsigned difference, whatever the build. -/
theorem sign_iff [Build] (a b : Nat) (ha : a < 4294967296) (hb : b < 4294967296)
    (hfit : -2147483648 ≤ toInt32 b - toInt32 a ∧ toInt32 b - toInt32 a ≤ 2147483647) :
    sign_test b a = true ↔ toInt32 (u32 ((b : Int) - (a : Int))) < 0 := by
  simp only [sign_test, if_pos hfit, decide_eq_true_eq]
  simp only [toInt32, u32] at hfit ⊢
  split_ifs at hfit ⊢ <;> omega

theorem zero_iff (a b : Nat) (ha : a < 4294967296) (hb : b < 4294967296) :
    u32 ((b : Int) - (a : Int)) = 0 ↔ b = a := by
  simp only [u32]
  omega

/-- What `execute_instruction` does on a fetched `cmpl` with both register
indices in range. -/
theorem execute_cmpl [Build] (pc : Nat) (instructions : List instruction_t) (m : Machine)
    (instr : instruction_t) (hfetch : instructions[pc / 4]? = some instr)
    (hop : instr.opcode = cmpl) (h1 : instr.first_register < 17)
    (h2 : instr.second_register < 17) :
    execute_instruction pc instructions m =
      Outcome.next (wrap32 (pc + 4))
        { m with
          registers := cmpl_flags m.registers instr.first_register instr.second_register } := by
  simp [execute_instruction, hfetch, hop, NUM_REGS, h1, h2]

theorem execute_jl [Build] (pc : Nat) (instructions : List instruction_t) (m : Machine)
    (instr : instruction_t) (hfetch : instructions[pc / 4]? = some instr)
    (hop : instr.opcode = jl) :
    execute_instruction pc instructions m =
      if ((m.registers 0 >>> 7) &&& 1) ^^^ ((m.registers 0 >>> 11) &&& 1) ≠ 0 then
        Outcome.next (u32 ((pc : Int) + 4 + sext16 instr.immediate)) m
      else Outcome.next (wrap32 (pc + 4)) m := by
  simp [execute_instruction, hfetch, hop]

theorem execute_jbe [Build] (pc : Nat) (instructions : List instruction_t) (m : Machine)
    (instr : instruction_t) (hfetch : instructions[pc / 4]? = some instr)
    (hop : instr.opcode = jbe) :
    execute_instruction pc instructions m =
      if ((m.registers 0 >>> 0) &&& 1) ||| ((m.registers 0 >>> 6) &&& 1) ≠ 0 then
        Outcome.next (u32 ((pc : Int) + 4 + sext16 instr.immediate)) m
      else Outcome.next (wrap32 (pc + 4)) m := by
  simp [execute_instruction, hfetch, hop]

/-- For a 16-bit immediate the taken and the not-taken address of a jump
coincide exactly when the immediate is 0. -/
theorem jump_target_ne_iff (pc imm : Nat) (himm : imm < 65536) :
    u32 ((pc : Int) + 4 + sext16 imm) ≠ wrap32 (pc + 4) ↔ imm ≠ 0 := by
  simp only [u32, wrap32, sext16]
  split_ifs <;> omega

theorem above_machine_WF : above_machine.WF := by
  refine ⟨fun i _ => ?_, fun a _ => by simp [above_machine, machine_of]⟩
  simp only [above_machine, machine_of, setReg]
  split_ifs <;> decide

theorem overflow_machine_WF : overflow_machine.WF := by
  refine ⟨fun i _ => ?_, fun a _ => by simp [overflow_machine, machine_of]⟩
  simp only [overflow_machine, machine_of, setReg]
  split_ifs <;> decide

theorem negative_machine_WF : negative_machine.WF := by
  refine ⟨fun i _ => ?_, fun a _ => by simp [negative_machine, machine_of]⟩
  simp only [negative_machine, machine_of, setReg]
  split_ifs <;> decide

/-- The flags `cmpl` leaves in register 0, for every build.  For every state
with 32-bit registers and every `cmpl` whose operand registers are
general-purpose registers (indices 1..16) holding `a = r1` and `b = r2`,
`execute_instruction` returns and register 0 is the OR of: bit 0 (carry) iff
`b < a` unsigned; bit 6 (zero) iff `b = a`; bit 7 (sign) iff the sign test
yields true; bit 11 (overflow) iff the exact signed difference `b - a` lies
outside `[-2^31, 2^31 - 1]`.  When the difference lies inside, the sign test
is the sign of the wrapped 32-bit result of `b - a`. -/
theorem cmpl_flags_value [Build] (pc : Nat) (instructions : List instruction_t) (m : Machine)
    (instr : instruction_t) (hm : m.WF)
    (hfetch : instructions[pc / 4]? = some instr) (hop : instr.opcode = cmpl)
    (h1 : 1 ≤ instr.first_register ∧ instr.first_register ≤ 16)
    (h2 : 1 ≤ instr.second_register ∧ instr.second_register ≤ 16) :
    ∃ m1, execute_instruction pc instructions m = Outcome.next (wrap32 (pc + 4)) m1 ∧
      m1.registers 0 =
        flag 0 (m.registers instr.second_register < m.registers instr.first_register) |||
          flag 6 (m.registers instr.second_register = m.registers instr.first_register) |||
          flag 7
            (sign_test (m.registers instr.second_register)
              (m.registers instr.first_register) = true) |||
          flag 11
            (toInt32 (m.registers instr.second_register) -
                  toInt32 (m.registers instr.first_register) < -2147483648 ∨
              2147483647 <
                toInt32 (m.registers instr.second_register) -
                  toInt32 (m.registers instr.first_register)) ∧
      (-2147483648 ≤ toInt32 (m.registers instr.second_register) -
            toInt32 (m.registers instr.first_register) ∧
          toInt32 (m.registers instr.second_register) -
            toInt32 (m.registers instr.first_register) ≤ 2147483647 →
        (sign_test (m.registers instr.second_register)
            (m.registers instr.first_register) = true ↔
          toInt32
              (u32 ((m.registers instr.second_register : Int) -
                (m.registers instr.first_register : Int))) < 0)) := by
  have ha : m.registers instr.first_register < 4294967296 :=
    hm.1 _ (by simp only [NUM_REGS]; omega)
  have hb : m.registers instr.second_register < 4294967296 :=
    hm.1 _ (by simp only [NUM_REGS]; omega)
  refine ⟨_, execute_cmpl pc instructions m instr hfetch hop (by omega) (by omega), ?_,
    fun hfit => sign_iff _ _ ha hb hfit⟩
  show cmpl_flags m.registers instr.first_register instr.second_register 0 = _
  rw [cmpl_flags_zero _ _ _ (by omega) (by omega)]
  simp only [zero_iff _ _ ha hb, gt_iff_lt, or_comm]

/-- C3 (evaluation of the code): `cmpl` on `r1 = -2147483648`, `r2 = 1`.  The
exact signed difference `r2 - r1 = 2147483649` does not fit in an `int`, so the
`int` subtraction of the sign test overflows.  The wrapped 32-bit result of
`r2 - r1` is negative, so the sign flag of `r2 - r1` is 1 and register 0 should
be `0x881`.  A build that folds the test to `r2 < r1` leaves register 0 equal
to `0x801`, sign clear; a build that wraps leaves `0x881`. -/
theorem cmpl_sign_flag_overflow :
    compare_program[0 / 4]? = some ⟨cmpl, 1, 2, 0⟩ ∧
      overflow_machine.registers 1 = 2147483648 ∧ overflow_machine.registers 2 = 1 ∧
      2147483647 <
        toInt32 (overflow_machine.registers 2) - toInt32 (overflow_machine.registers 1) ∧
      toInt32
          (u32 ((overflow_machine.registers 2 : Int) - (overflow_machine.registers 1 : Int))) <
        0 ∧
      @execute_instruction folding_build 0 compare_program overflow_machine =
        Outcome.next 4 overflow_folded ∧
      overflow_folded.registers 0 = 2049 ∧ (overflow_folded.registers 0).testBit 7 = false ∧
      @execute_instruction wrapping_build 0 compare_program overflow_machine =
        Outcome.next 4 overflow_wrapped ∧
      overflow_wrapped.registers 0 = 2177 ∧ (overflow_wrapped.registers 0).testBit 7 = true :=
  ⟨rfl, by decide, by decide, by decide, by decide, rfl, by decide, by decide, rfl, by decide,
    by decide⟩

/-- C4 (amended): `cmpl` followed by `jl` agrees with signed comparison.  For
every build and every state with 32-bit registers, `cmpl r1, r2` on
general-purpose registers (indices 1..16) holding `a = r1`, `b = r2` whose exact
signed difference `b - a` lies in `[-2^31, 2^31 - 1]` returns, and `jl` with
immediate `d` executed at program counter `pc` in the resulting state returns
`pc + 4 + d` (mod 2^32, `d` sign-extended) when `b < a` as signed 32-bit
integers and `pc + 4` otherwise; so, whenever these two addresses differ, it
returns `pc + 4 + d` if and only if `b < a`. -/
theorem cmpl_jl_signed [Build] (pc0 pc : Nat) (instructions : List instruction_t) (m : Machine)
    (c j : instruction_t) (hm : m.WF)
    (hc : instructions[pc0 / 4]? = some c) (hcop : c.opcode = cmpl)
    (h1 : 1 ≤ c.first_register ∧ c.first_register ≤ 16)
    (h2 : 1 ≤ c.second_register ∧ c.second_register ≤ 16)
    (hfit : -2147483648 ≤
          toInt32 (m.registers c.second_register) - toInt32 (m.registers c.first_register) ∧
        toInt32 (m.registers c.second_register) - toInt32 (m.registers c.first_register) ≤
          2147483647)
    (hj : instructions[pc / 4]? = some j) (hjop : j.opcode = jl) :
    ∃ m1, execute_instruction pc0 instructions m = Outcome.next (wrap32 (pc0 + 4)) m1 ∧
      execute_instruction pc instructions m1 =
        Outcome.next
          (if toInt32 (m.registers c.second_register) < toInt32 (m.registers c.first_register)
            then u32 ((pc : Int) + 4 + sext16 j.immediate) else wrap32 (pc + 4)) m1 ∧
      (u32 ((pc : Int) + 4 + sext16 j.immediate) ≠ wrap32 (pc + 4) →
        (execute_instruction pc instructions m1 =
            Outcome.next (u32 ((pc : Int) + 4 + sext16 j.immediate)) m1 ↔
          toInt32 (m.registers c.second_register) < toInt32 (m.registers c.first_register))) := by
  have ha : m.registers c.first_register < 4294967296 :=
    hm.1 _ (by simp only [NUM_REGS]; omega)
  have hb : m.registers c.second_register < 4294967296 :=
    hm.1 _ (by simp only [NUM_REGS]; omega)
  have hlt := signed_lt_iff _ _ hfit
  have key : execute_instruction pc instructions
        { m with registers := cmpl_flags m.registers c.first_register c.second_register } =
      Outcome.next
        (if toInt32 (m.registers c.second_register) < toInt32 (m.registers c.first_register)
          then u32 ((pc : Int) + 4 + sext16 j.immediate) else wrap32 (pc + 4))
        { m with registers := cmpl_flags m.registers c.first_register c.second_register } := by
    rw [execute_jl pc instructions _ j hj hjop]
    simp only [cmpl_flags_zero _ _ _ (show c.first_register ≠ 0 by omega)
      (show c.second_register ≠ 0 by omega)]
    obtain ⟨-, -, h7, h11⟩ := flags_bits
      (m.registers c.second_register < m.registers c.first_register)
      (u32 ((m.registers c.second_register : Int) - (m.registers c.first_register : Int)) = 0)
      (sign_test (m.registers c.second_register) (m.registers c.first_register) = true)
      (toInt32 (m.registers c.second_register) - toInt32 (m.registers c.first_register) >
          2147483647 ∨
        toInt32 (m.registers c.second_register) - toInt32 (m.registers c.first_register) <
          -2147483648)
    rw [h7, h11]
    by_cases hs : sign_test (m.registers c.second_register)
        (m.registers c.first_register) = true <;>
      by_cases ho : (toInt32 (m.registers c.second_register) -
          toInt32 (m.registers c.first_register) > 2147483647 ∨
        toInt32 (m.registers c.second_register) - toInt32 (m.registers c.first_register) <
          -2147483648) <;>
      simp only [hs, ho, if_true, if_false, true_iff, iff_true, iff_false, false_iff,
        not_true_eq_false, not_false_eq_true] at hlt <;>
      simp [hs, ho, hlt]
  refine ⟨_, execute_cmpl pc0 instructions m c hc hcop (by omega) (by omega), key, ?_⟩
  intro hne
  rw [key]
  by_cases hsl : toInt32 (m.registers c.second_register) <
      toInt32 (m.registers c.first_register)
  · simp [hsl]
  · simp only [hsl, if_false, iff_false, Outcome.next.injEq, and_true]
    exact fun h => hne h.symm

/-- Witness for the amended C4: `a = 5`, `b = -2`, `jl` with displacement 8 at
program counter 4; the jump is taken. -/
theorem cmpl_jl_signed_witness :
    negative_machine.WF ∧ compare_program[0 / 4]? = some ⟨cmpl, 1, 2, 0⟩ ∧
      (1 ≤ 1 ∧ 1 ≤ 16) ∧ (1 ≤ 2 ∧ 2 ≤ 16) ∧
      (-2147483648 ≤
          toInt32 (negative_machine.registers 2) - toInt32 (negative_machine.registers 1) ∧
        toInt32 (negative_machine.registers 2) - toInt32 (negative_machine.registers 1) ≤
          2147483647) ∧
      compare_program[4 / 4]? = some ⟨jl, 0, 0, 8⟩ ∧
      ∃ m1, execute_instruction 0 compare_program negative_machine =
          Outcome.next (wrap32 (0 + 4)) m1 ∧
        execute_instruction 4 compare_program m1 =
          Outcome.next
            (if toInt32 (negative_machine.registers 2) < toInt32 (negative_machine.registers 1)
              then u32 (((4 : Nat) : Int) + 4 + sext16 8) else wrap32 (4 + 4)) m1 ∧
        (u32 (((4 : Nat) : Int) + 4 + sext16 8) ≠ wrap32 (4 + 4) →
          (execute_instruction 4 compare_program m1 =
              Outcome.next (u32 (((4 : Nat) : Int) + 4 + sext16 8)) m1 ↔
            toInt32 (negative_machine.registers 2) <
              toInt32 (negative_machine.registers 1))) :=
  ⟨negative_machine_WF, rfl, by decide, by decide, by decide, rfl,
    cmpl_jl_signed 0 4 compare_program negative_machine ⟨cmpl, 1, 2, 0⟩ ⟨jl, 0, 0, 8⟩
      negative_machine_WF rfl rfl (by decide) (by decide) (by decide) rfl rfl⟩

/-- Counterexample to C4 as stated: with `a = 0`, `b = 1` and displacement
`d = 0`, `jl` after `cmpl` returns `pc + 4`, which is `pc + 4 + d`, although
`b < a` does not hold.  And with `a = -2147483648`, `b = 1`, whose exact
difference does not fit in an `int`, in a build that folds the sign test of
`cmpl` to `r2 < r1`, `jl` with displacement 8 at program counter 4 returns
`4 + 4 + 8 = 16` although `b < a` does not hold. -/
theorem cmpl_jl_iff_counterexample :
    execute_instruction 0 zero_jump_program above_machine = Outcome.next 4 above_compared ∧
      ¬ (execute_instruction 4 zero_jump_program above_compared =
            Outcome.next (u32 (((4 : Nat) : Int) + 4 + sext16 0)) above_compared ↔
          toInt32 (above_machine.registers 2) < toInt32 (above_machine.registers 1)) ∧
      @execute_instruction folding_build 0 compare_program overflow_machine =
        Outcome.next 4 overflow_folded ∧
      compare_program[4 / 4]? = some ⟨jl, 0, 0, 8⟩ ∧
      @execute_instruction folding_build 4 compare_program overflow_folded =
        Outcome.next 16 overflow_folded ∧
      ¬ toInt32 (overflow_machine.registers 2) < toInt32 (overflow_machine.registers 1) := by
  refine ⟨rfl, ?_, rfl, rfl, rfl, by decide⟩
  have h : execute_instruction 4 zero_jump_program above_compared =
      Outcome.next (u32 (((4 : Nat) : Int) + 4 + sext16 0)) above_compared := rfl
  have h2 : ¬ toInt32 (above_machine.registers 2) < toInt32 (above_machine.registers 1) := by
    decide
  exact fun hiff => h2 (hiff.1 h)

/-- C5 (amended): `cmpl` followed by `jbe` agrees with unsigned comparison.  For
every state with 32-bit registers, `cmpl r1, r2` on general-purpose registers
(indices 1..16) holding `a = r1`, `b = r2` returns, and `jbe` with immediate
`d` executed at program counter `pc` in the resulting state returns
`pc + 4 + d` (mod 2^32, `d` sign-extended) when `b <= a` as unsigned 32-bit
integers and `pc + 4` otherwise; so, whenever these two addresses differ, it
returns `pc + 4 + d` if and only if `b <= a`. -/
theorem cmpl_jbe_unsigned [Build] (pc0 pc : Nat) (instructions : List instruction_t) (m : Machine)
    (c j : instruction_t) (hm : m.WF)
    (hc : instructions[pc0 / 4]? = some c) (hcop : c.opcode = cmpl)
    (h1 : 1 ≤ c.first_register ∧ c.first_register ≤ 16)
    (h2 : 1 ≤ c.second_register ∧ c.second_register ≤ 16)
    (hj : instructions[pc / 4]? = some j) (hjop : j.opcode = jbe) :
    ∃ m1, execute_instruction pc0 instructions m = Outcome.next (wrap32 (pc0 + 4)) m1 ∧
      execute_instruction pc instructions m1 =
        Outcome.next
          (if m.registers c.second_register ≤ m.registers c.first_register
            then u32 ((pc : Int) + 4 + sext16 j.immediate) else wrap32 (pc + 4)) m1 ∧
      (u32 ((pc : Int) + 4 + sext16 j.immediate) ≠ wrap32 (pc + 4) →
        (execute_instruction pc instructions m1 =
            Outcome.next (u32 ((pc : Int) + 4 + sext16 j.immediate)) m1 ↔
          m.registers c.second_register ≤ m.registers c.first_register)) := by
  have ha : m.registers c.first_register < 4294967296 :=
    hm.1 _ (by simp only [NUM_REGS]; omega)
  have hb : m.registers c.second_register < 4294967296 :=
    hm.1 _ (by simp only [NUM_REGS]; omega)
  have hz := zero_iff _ _ ha hb
  have key : execute_instruction pc instructions
        { m with registers := cmpl_flags m.registers c.first_register c.second_register } =
      Outcome.next
        (if m.registers c.second_register ≤ m.registers c.first_register
          then u32 ((pc : Int) + 4 + sext16 j.immediate) else wrap32 (pc + 4))
        { m with registers := cmpl_flags m.registers c.first_register c.second_register } := by
    rw [execute_jbe pc instructions _ j hj hjop]
    simp only [cmpl_flags_zero _ _ _ (show c.first_register ≠ 0 by omega)
      (show c.second_register ≠ 0 by omega)]
    obtain ⟨h0, h6, -, -⟩ := flags_bits
      (m.registers c.second_register < m.registers c.first_register)
      (u32 ((m.registers c.second_register : Int) - (m.registers c.first_register : Int)) = 0)
      (sign_test (m.registers c.second_register) (m.registers c.first_register) = true)
      (toInt32 (m.registers c.second_register) - toInt32 (m.registers c.first_register) >
          2147483647 ∨
        toInt32 (m.registers c.second_register) - toInt32 (m.registers c.first_register) <
          -2147483648)
    rw [h0, h6]
    simp only [hz]
    rcases Nat.lt_trichotomy (m.registers c.second_register) (m.registers c.first_register)
      with hlt | heq | hgt
    · have hne : m.registers c.second_register ≠ m.registers c.first_register := by omega
      simp [hlt, hne, Nat.le_of_lt hlt]
    · simp [heq]
    · have hne : m.registers c.second_register ≠ m.registers c.first_register := by omega
      have hnl : ¬ m.registers c.second_register < m.registers c.first_register := by omega
      have hnle : ¬ m.registers c.second_register ≤ m.registers c.first_register := by omega
      simp [hne, hnl, hnle]
  refine ⟨_, execute_cmpl pc0 instructions m c hc hcop (by omega) (by omega), key, ?_⟩
  intro hne
  rw [key]
  by_cases hle : m.registers c.second_register ≤ m.registers c.first_register
  · simp [hle]
  · simp only [hle, if_false, iff_false, Outcome.next.injEq, and_true]
    exact fun h => hne h.symm

/-- Witness for the amended C5: `a = 0x80000000`, `b = 1`, `jbe` with
displacement 8 at program counter 8. -/
theorem cmpl_jbe_unsigned_witness :
    overflow_machine.WF ∧ compare_program[0 / 4]? = some ⟨cmpl, 1, 2, 0⟩ ∧
      (1 ≤ 1 ∧ 1 ≤ 16) ∧ (1 ≤ 2 ∧ 2 ≤ 16) ∧
      compare_program[8 / 4]? = some ⟨jbe, 0, 0, 8⟩ ∧
      ∃ m1, execute_instruction 0 compare_program overflow_machine =
          Outcome.next (wrap32 (0 + 4)) m1 ∧
        execute_instruction 8 compare_program m1 =
          Outcome.next
            (if overflow_machine.registers 2 ≤ overflow_machine.registers 1
              then u32 (((8 : Nat) : Int) + 4 + sext16 8) else wrap32 (8 + 4)) m1 ∧
        (u32 (((8 : Nat) : Int) + 4 + sext16 8) ≠ wrap32 (8 + 4) →
          (execute_instruction 8 compare_program m1 =
              Outcome.next (u32 (((8 : Nat) : Int) + 4 + sext16 8)) m1 ↔
            overflow_machine.registers 2 ≤ overflow_machine.registers 1)) :=
  ⟨overflow_machine_WF, rfl, by decide, by decide, rfl,
    cmpl_jbe_unsigned 0 8 compare_program overflow_machine ⟨cmpl, 1, 2, 0⟩ ⟨jbe, 0, 0, 8⟩
      overflow_machine_WF rfl rfl (by decide) (by decide) rfl rfl⟩

/-- Counterexample to C5 as stated: with `a = 0`, `b = 1` and displacement
`d = 0`, `jbe` after `cmpl` returns `pc + 4`, which is `pc + 4 + d`, although
`b <= a` does not hold. -/
theorem cmpl_jbe_iff_counterexample :
    execute_instruction 0 zero_jump_program above_machine = Outcome.next 4 above_compared ∧
      ¬ (execute_instruction 8 zero_jump_program above_compared =
            Outcome.next (u32 (((8 : Nat) : Int) + 4 + sext16 0)) above_compared ↔
          above_machine.registers 2 ≤ above_machine.registers 1) := by
  refine ⟨rfl, ?_⟩
  have h : execute_instruction 8 zero_jump_program above_compared =
      Outcome.next (u32 (((8 : Nat) : Int) + 4 + sext16 0)) above_compared := rfl
  have h2 : ¬ above_machine.registers 2 ≤ above_machine.registers 1 := by decide
  exact fun hiff => h2 (hiff.1 h)

/-! ## Stack instructions -/

theorem read4_write4 (mem : Nat → Nat) (a v : Nat) (hv : v < 4294967296) :
    read4 (write4 mem a v) a = v := by
  simp only [read4, write4]
  simp
  omega

theorem write4_other (mem : Nat → Nat) (a v i : Nat) (h : i < a ∨ a + 4 ≤ i) :
    write4 mem a v i = mem i := by
  simp only [write4]
  split_ifs <;> first | rfl | omega

theorem execute_pushl [Build] (pc : Nat) (instructions : List instruction_t) (m : Machine)
    (instr : instruction_t) (hfetch : instructions[pc / 4]? = some instr)
    (hop : instr.opcode = pushl) :
    execute_instruction pc instructions m =
      if instr.first_register < NUM_REGS ∧
          u32 ((m.registers 8 : Int) - 4) + 4 ≤ STACK_SIZE then
        Outcome.next (wrap32 (pc + 4)) (pushl_state m instr.first_register)
      else Outcome.undefined := by
  simp [execute_instruction, hfetch, hop, pushl_state, setReg_same]

theorem execute_popl [Build] (pc : Nat) (instructions : List instruction_t) (m : Machine)
    (instr : instruction_t) (hfetch : instructions[pc / 4]? = some instr)
    (hop : instr.opcode = popl) :
    execute_instruction pc instructions m =
      if instr.first_register < NUM_REGS ∧ m.registers 8 + 4 ≤ STACK_SIZE then
        Outcome.next (wrap32 (pc + 4)) (popl_state m instr.first_register)
      else Outcome.undefined := by
  simp [execute_instruction, hfetch, hop, popl_state]

theorem execute_call [Build] (pc : Nat) (instructions : List instruction_t) (m : Machine)
    (instr : instruction_t) (hfetch : instructions[pc / 4]? = some instr)
    (hop : instr.opcode = call) :
    execute_instruction pc instructions m =
      if u32 ((m.registers 8 : Int) - 4) + 4 ≤ STACK_SIZE then
        Outcome.next (u32 ((pc : Int) + 4 + sext16 instr.immediate)) (call_state m pc)
      else Outcome.undefined := by
  simp [execute_instruction, hfetch, hop, call_state]

theorem execute_ret [Build] (pc : Nat) (instructions : List instruction_t) (m : Machine)
    (instr : instruction_t) (hfetch : instructions[pc / 4]? = some instr)
    (hop : instr.opcode = ret) :
    execute_instruction pc instructions m =
      if m.registers 8 = 1024 then Outcome.exit 0 m
      else if m.registers 8 + 4 ≤ STACK_SIZE then
        Outcome.next (read4 m.memory (m.registers 8)) (ret_state m)
      else Outcome.undefined := by
  simp [execute_instruction, hfetch, hop, ret_state]

theorem u32_sub_four (x : Nat) (h : 4 ≤ x) (hx : x ≤ 1024) : u32 ((x : Int) - 4) = x - 4 := by
  simp only [u32]
  omega

/-- The registers and the memory after `pushl r` then `popl r`, from a state
whose stack pointer `sp` satisfies `4 <= sp <= 1024`. -/
theorem pushl_popl_state (m : Machine) (r : Nat) (hm : m.WF)
    (hsp : 4 ≤ m.registers 8 ∧ m.registers 8 ≤ 1024) (hr : r ≤ 16) :
    (pushl_state m r).registers 8 = m.registers 8 - 4 ∧
      (popl_state (pushl_state m r) r).registers r = m.registers r ∧
      (popl_state (pushl_state m r) r).registers 8 = m.registers 8 ∧
      (popl_state (pushl_state m r) r).memory =
        write4 m.memory (m.registers 8 - 4) (if r = 8 then m.registers 8 - 4 else m.registers r) := by
  have hu := u32_sub_four _ hsp.1 hsp.2
  have hv : m.registers r < 4294967296 := hm.1 r (by simp only [NUM_REGS]; omega)
  have hpush8 : (pushl_state m r).registers 8 = m.registers 8 - 4 := by
    simp [pushl_state, setReg_same, hu]
  have hval : (pushl_state m r).registers r =
      if r = 8 then m.registers 8 - 4 else m.registers r := by
    simp only [pushl_state, setReg, hu]
  have hmem : (pushl_state m r).memory =
      write4 m.memory (m.registers 8 - 4) (if r = 8 then m.registers 8 - 4 else m.registers r) := by
    simp only [pushl_state, setReg, hu, if_true]
  have hread : read4 (pushl_state m r).memory ((pushl_state m r).registers 8) =
      (pushl_state m r).registers r := by
    rw [hmem, hpush8, hval]
    apply read4_write4
    split_ifs <;> omega
  refine ⟨hpush8, ?_, ?_, ?_⟩
  · simp only [popl_state, hread]
    by_cases h8 : r = 8
    · subst h8
      simp only [setReg_same, hpush8, wrap32]
      omega
    · rw [setReg_other _ _ _ _ h8, setReg_same, hval, if_neg h8]
  · simp only [popl_state, hread, setReg_same]
    by_cases h8 : r = 8
    · subst h8
      simp only [setReg_same, hpush8, wrap32]
      omega
    · rw [setReg_other _ _ _ _ (Ne.symm h8), hpush8]
      simp only [wrap32]
      omega
  · simp only [popl_state]
    exact hmem

/-- C6: push then pop restores the register and the stack pointer.  For every
state with 32-bit registers whose stack pointer `sp` (register 8) satisfies
`4 <= sp <= 1024` and every register index `r` in `[0, 16]` (`r = 8`
included), `pushl r` and then `popl r` both return their program counter + 4
(as `unsigned int`), and afterwards register `r` holds its value from before
the push and register 8 holds `sp`. -/
theorem pushl_popl_restores [Build] (pc1 pc2 : Nat) (instructions : List instruction_t) (m : Machine)
    (p q : instruction_t) (r : Nat) (hm : m.WF)
    (hsp : 4 ≤ m.registers 8 ∧ m.registers 8 ≤ 1024) (hr : r ≤ 16)
    (hp : instructions[pc1 / 4]? = some p) (hpop : p.opcode = pushl)
    (hpr : p.first_register = r)
    (hq : instructions[pc2 / 4]? = some q) (hqop : q.opcode = popl)
    (hqr : q.first_register = r) :
    ∃ m1 m2, execute_instruction pc1 instructions m = Outcome.next (wrap32 (pc1 + 4)) m1 ∧
      execute_instruction pc2 instructions m1 = Outcome.next (wrap32 (pc2 + 4)) m2 ∧
      m2.registers r = m.registers r ∧ m2.registers 8 = m.registers 8 := by
  obtain ⟨h8, hrr, hsp2, -⟩ := pushl_popl_state m r hm hsp hr
  have hu := u32_sub_four _ hsp.1 hsp.2
  refine ⟨pushl_state m r, popl_state (pushl_state m r) r, ?_, ?_, hrr, hsp2⟩
  · rw [execute_pushl pc1 instructions m p hp hpop, hpr, if_pos]
    simp only [NUM_REGS, STACK_SIZE, hu]
    omega
  · rw [execute_popl pc2 instructions _ q hq hqop, hqr, if_pos]
    simp only [NUM_REGS, STACK_SIZE, h8]
    omega

/-- Witness for C6: `pushl r2; popl r2` from stack pointer 1024. -/
theorem pushl_popl_restores_witness :
    above_machine.WF ∧ (4 ≤ above_machine.registers 8 ∧ above_machine.registers 8 ≤ 1024) ∧
      2 ≤ 16 ∧ push_pop_program[0 / 4]? = some ⟨pushl, 2, 0, 0⟩ ∧
      push_pop_program[4 / 4]? = some ⟨popl, 2, 0, 0⟩ ∧
      ∃ m1 m2, execute_instruction 0 push_pop_program above_machine =
          Outcome.next (wrap32 (0 + 4)) m1 ∧
        execute_instruction 4 push_pop_program m1 = Outcome.next (wrap32 (4 + 4)) m2 ∧
        m2.registers 2 = above_machine.registers 2 ∧
        m2.registers 8 = above_machine.registers 8 :=
  ⟨above_machine_WF, by decide, by decide, rfl, rfl,
    pushl_popl_restores 0 4 push_pop_program above_machine ⟨pushl, 2, 0, 0⟩ ⟨popl, 2, 0, 0⟩ 2
      above_machine_WF (by decide) (by decide) rfl rfl rfl rfl rfl rfl⟩

/-- C7 (amended): push then pop leaves memory unchanged outside the pushed
slot.  For every state with 32-bit registers whose stack pointer `sp`
satisfies `4 <= sp <= 1024` and every register index `r` in `[0, 16]`, after
`pushl r` and then `popl r` every byte of memory at an address outside
`sp - 4 .. sp - 1` equals its value before the push, and the 4 bytes at
`sp - 4 .. sp - 1` hold the pushed value (the value of register `r`, which for
`r = 8` is `sp - 4`). -/
theorem pushl_popl_memory [Build] (pc1 pc2 : Nat) (instructions : List instruction_t) (m : Machine)
    (p q : instruction_t) (r : Nat) (hm : m.WF)
    (hsp : 4 ≤ m.registers 8 ∧ m.registers 8 ≤ 1024) (hr : r ≤ 16)
    (hp : instructions[pc1 / 4]? = some p) (hpop : p.opcode = pushl)
    (hpr : p.first_register = r)
    (hq : instructions[pc2 / 4]? = some q) (hqop : q.opcode = popl)
    (hqr : q.first_register = r) :
    ∃ m1 m2, execute_instruction pc1 instructions m = Outcome.next (wrap32 (pc1 + 4)) m1 ∧
      execute_instruction pc2 instructions m1 = Outcome.next (wrap32 (pc2 + 4)) m2 ∧
      (∀ a, a < m.registers 8 - 4 ∨ m.registers 8 ≤ a → m2.memory a = m.memory a) ∧
      read4 m2.memory (m.registers 8 - 4) =
        (if r = 8 then m.registers 8 - 4 else m.registers r) := by
  obtain ⟨h8, -, -, hmem⟩ := pushl_popl_state m r hm hsp hr
  have hu := u32_sub_four _ hsp.1 hsp.2
  have hv : m.registers r < 4294967296 := hm.1 r (by simp only [NUM_REGS]; omega)
  refine ⟨pushl_state m r, popl_state (pushl_state m r) r, ?_, ?_, ?_, ?_⟩
  · rw [execute_pushl pc1 instructions m p hp hpop, hpr, if_pos]
    simp only [NUM_REGS, STACK_SIZE, hu]
    omega
  · rw [execute_popl pc2 instructions _ q hq hqop, hqr, if_pos]
    simp only [NUM_REGS, STACK_SIZE, h8]
    omega
  · intro a ha
    rw [hmem]
    exact write4_other _ _ _ _ (by omega)
  · rw [hmem]
    apply read4_write4
    split_ifs <;> omega

/-- Witness for the amended C7: `pushl r2; popl r2` from stack pointer 1024. -/
theorem pushl_popl_memory_witness :
    above_machine.WF ∧ (4 ≤ above_machine.registers 8 ∧ above_machine.registers 8 ≤ 1024) ∧
      2 ≤ 16 ∧ push_pop_program[0 / 4]? = some ⟨pushl, 2, 0, 0⟩ ∧
      push_pop_program[4 / 4]? = some ⟨popl, 2, 0, 0⟩ ∧
      ∃ m1 m2, execute_instruction 0 push_pop_program above_machine =
          Outcome.next (wrap32 (0 + 4)) m1 ∧
        execute_instruction 4 push_pop_program m1 = Outcome.next (wrap32 (4 + 4)) m2 ∧
        (∀ a, a < above_machine.registers 8 - 4 ∨ above_machine.registers 8 ≤ a →
          m2.memory a = above_machine.memory a) ∧
        read4 m2.memory (above_machine.registers 8 - 4) =
          (if 2 = 8 then above_machine.registers 8 - 4 else above_machine.registers 2) :=
  ⟨above_machine_WF, by decide, by decide, rfl, rfl,
    pushl_popl_memory 0 4 push_pop_program above_machine ⟨pushl, 2, 0, 0⟩ ⟨popl, 2, 0, 0⟩ 2
      above_machine_WF (by decide) (by decide) rfl rfl rfl rfl rfl rfl⟩

/-- Counterexample to C7 as stated: from zeroed memory, stack pointer 1024 and
`registers[2] = 1`, `pushl r2; popl r2` leaves `memory[1020] = 1`, which was 0
before the push. -/
theorem pushl_popl_memory_counterexample :
    (4 ≤ above_machine.registers 8 ∧ above_machine.registers 8 ≤ 1024) ∧
      execute_instruction 0 push_pop_program above_machine =
        Outcome.next 4 (pushl_state above_machine 2) ∧
      execute_instruction 4 push_pop_program (pushl_state above_machine 2) =
        Outcome.next 8 (popl_state (pushl_state above_machine 2) 2) ∧
      (popl_state (pushl_state above_machine 2) 2).memory 1020 = 1 ∧
      above_machine.memory 1020 = 0 :=
  ⟨by decide, rfl, rfl, by decide, rfl⟩

theorem wrap32_lt (n : Nat) : wrap32 n < 4294967296 := by
  simp only [wrap32]
  omega

/-- C8: call then return lands on the instruction after the call.  For every
state whose stack pointer `sp` satisfies `4 <= sp <= 1024`, every program
counter `pc` and every immediate `d`, `call` at `pc` returns `pc + 4 + d`
(mod 2^32, `d` sign-extended) with the stack pointer equal to `sp - 4` and the
4 bytes at `memory[sp-4 .. sp-1]` holding `pc + 4`; `ret` executed in the
resulting state does not end the run, returns `pc + 4` (as `unsigned int`) and
restores the stack pointer to `sp`. -/
theorem call_ret_returns [Build] (pc pc2 : Nat) (instructions : List instruction_t) (m : Machine)
    (c q : instruction_t) (hsp : 4 ≤ m.registers 8 ∧ m.registers 8 ≤ 1024)
    (hc : instructions[pc / 4]? = some c) (hcop : c.opcode = call)
    (hq : instructions[pc2 / 4]? = some q) (hqop : q.opcode = ret) :
    ∃ m1 m2, execute_instruction pc instructions m =
        Outcome.next (u32 ((pc : Int) + 4 + sext16 c.immediate)) m1 ∧
      m1.registers 8 = m.registers 8 - 4 ∧
      read4 m1.memory (m.registers 8 - 4) = wrap32 (pc + 4) ∧
      execute_instruction pc2 instructions m1 = Outcome.next (wrap32 (pc + 4)) m2 ∧
      m2.registers 8 = m.registers 8 := by
  have hu := u32_sub_four _ hsp.1 hsp.2
  have h8 : (call_state m pc).registers 8 = m.registers 8 - 4 := by
    simp [call_state, setReg_same, hu]
  have hread : read4 (call_state m pc).memory (m.registers 8 - 4) = wrap32 (pc + 4) := by
    simp only [call_state, hu]
    exact read4_write4 _ _ _ (wrap32_lt _)
  refine ⟨call_state m pc, ret_state (call_state m pc), ?_, h8, hread, ?_, ?_⟩
  · rw [execute_call pc instructions m c hc hcop, if_pos]
    simp only [STACK_SIZE, hu]
    omega
  · rw [execute_ret pc2 instructions _ q hq hqop, h8, if_neg (by omega), if_pos, hread]
    simp only [STACK_SIZE]
    omega
  · simp only [ret_state, setReg_same, h8, wrap32]
    omega

/-- Witness for C8: `call` at address 0 from stack pointer 1024, then the
`ret` at address 8. -/
theorem call_ret_returns_witness :
    (4 ≤ above_machine.registers 8 ∧ above_machine.registers 8 ≤ 1024) ∧
      call_ret_program[0 / 4]? = some ⟨call, 0, 0, 4⟩ ∧
      call_ret_program[8 / 4]? = some ⟨ret, 0, 0, 0⟩ ∧
      ∃ m1 m2, execute_instruction 0 call_ret_program above_machine =
          Outcome.next (u32 (((0 : Nat) : Int) + 4 + sext16 4)) m1 ∧
        m1.registers 8 = above_machine.registers 8 - 4 ∧
        read4 m1.memory (above_machine.registers 8 - 4) = wrap32 (0 + 4) ∧
        execute_instruction 8 call_ret_program m1 = Outcome.next (wrap32 (0 + 4)) m2 ∧
        m2.registers 8 = above_machine.registers 8 :=
  ⟨by decide, rfl, rfl,
    call_ret_returns 0 8 call_ret_program above_machine ⟨call, 0, 0, 4⟩ ⟨ret, 0, 0, 0⟩
      (by decide) rfl rfl rfl rfl⟩

/-- C9 (amended): terminal return.  For every state, `ret` ends the run, with
status 0, if and only if register 8 equals 1024, whatever the program counter,
the other registers and the memory contain, and then no register or memory
byte is modified; when register 8 differs from 1024 and the 4 bytes at the
stack pointer lie inside the memory (register 8 at most 1020), the run
continues at the 4-byte value read from memory at the stack pointer, with the
stack pointer increased by 4 and nothing else modified. -/
theorem ret_terminal [Build] (pc : Nat) (instructions : List instruction_t) (m : Machine)
    (q : instruction_t) (hq : instructions[pc / 4]? = some q) (hqop : q.opcode = ret) :
    ((∃ status m1, execute_instruction pc instructions m = Outcome.exit status m1) ↔
        m.registers 8 = 1024) ∧
      (m.registers 8 = 1024 → execute_instruction pc instructions m = Outcome.exit 0 m) ∧
      (m.registers 8 ≠ 1024 → m.registers 8 ≤ 1020 →
        execute_instruction pc instructions m =
          Outcome.next (read4 m.memory (m.registers 8))
            { m with registers := setReg m.registers 8 (m.registers 8 + 4) }) := by
  rw [execute_ret pc instructions m q hq hqop]
  refine ⟨?_, ?_, ?_⟩
  · constructor
    · rintro ⟨status, m1, h⟩
      by_contra hne
      rw [if_neg hne] at h
      split_ifs at h
    · intro h
      exact ⟨0, m, by rw [if_pos h]⟩
  · intro h
    rw [if_pos h]
  · intro hne hle
    rw [if_neg hne, if_pos (by simp only [STACK_SIZE]; omega)]
    have hw : wrap32 (m.registers 8 + 4) = m.registers 8 + 4 := by
      simp only [wrap32]
      omega
    simp only [ret_state, hw]

/-- Witness for the amended C9: a `ret` with stack pointer 1024 and a `ret`
with one frame on the stack. -/
theorem ret_terminal_witness :
    (ret_program[0 / 4]? = some ⟨ret, 0, 0, 0⟩ ∧
        above_machine.registers 8 = 1024 ∧
        execute_instruction 0 ret_program above_machine = Outcome.exit 0 above_machine) ∧
      (one_frame_machine.registers 8 ≠ 1024 ∧ one_frame_machine.registers 8 ≤ 1020 ∧
        execute_instruction 0 ret_program one_frame_machine =
          Outcome.next (read4 one_frame_machine.memory (one_frame_machine.registers 8))
            { one_frame_machine with
              registers :=
                setReg one_frame_machine.registers 8 (one_frame_machine.registers 8 + 4) }) :=
  ⟨⟨rfl, by decide,
      (ret_terminal 0 ret_program above_machine ⟨ret, 0, 0, 0⟩ rfl rfl).2.1 (by decide)⟩,
    by decide, by decide,
    (ret_terminal 0 ret_program one_frame_machine ⟨ret, 0, 0, 0⟩ rfl rfl).2.2 (by decide)
      (by decide)⟩

/-- Counterexample to C9 as stated: with register 8 equal to 1022 (different
from 1024) the 4 bytes at the stack pointer reach past the 1024 bytes of
memory; `ret` reads outside the array and the run does not continue at a value
popped from memory. -/
theorem ret_terminal_counterexample :
    stray_machine.registers 8 ≠ 1024 ∧
      execute_instruction 0 ret_program stray_machine = Outcome.undefined ∧
      ¬ ∃ pc1 m1, execute_instruction 0 ret_program stray_machine = Outcome.next pc1 m1 := by
  have h : execute_instruction 0 ret_program stray_machine = Outcome.undefined := rfl
  refine ⟨by decide, h, ?_⟩
  rintro ⟨pc1, m1, h1⟩
  rw [h] at h1
  cases h1

/-! ## Example run -/

/-- C10: starting from the initial state (program counter 0, all registers 0
except register 8 = 1024, any memory contents and any input), the loop run on
the decoded program `[movl_imm_reg r1, 5; movl_imm_reg r2, 3; addl_reg_reg r1,
r2; printr r2; ret]` writes exactly one line, `8 (0x8)`, leaves register 2 = 8
and register 1 = 5, and ends with `exit(0)` at the `ret`, which is the fifth
instruction executed: the instructions fetched are those of index 0, 1, 2, 3,
4 and no other, and after four steps the run has not yet ended. -/
theorem example_run [Build] (unused : Nat → Nat) (memory : Nat → Nat) (input : List Int) (k : Nat) :
    (∃ m, main_loop (example_program unused) (k + 5) 0 (initial_machine memory input) [] =
          ⟨[0, 1, 2, 3, 4], RunResult.exited 0 m⟩ ∧
        m.output = ["8 (0x8)\n"] ∧ m.registers 2 = 8 ∧ m.registers 1 = 5) ∧
      ∃ m4, main_loop (example_program unused) 4 0 (initial_machine memory input) [] =
        ⟨[0, 1, 2, 3], RunResult.running 16 m4⟩ := by
  refine ⟨⟨_, rfl, ?_, rfl, rfl⟩, _, rfl⟩
  with_unfolding_all rfl

/-! ## Jumps -/

/-- A single bit of a word, as the source extracts it. -/
theorem shift_and_one (f k : Nat) : (f >>> k) &&& 1 = if f.testBit k then 1 else 0 := by
  rw [Nat.testBit_to_div_mod, Nat.and_one_is_mod, Nat.shiftRight_eq_div_pow]
  by_cases h : f / 2 ^ k % 2 = 1
  · simp [h]
  · have : f / 2 ^ k % 2 = 0 := by omega
    simp [this]

/-- What `execute_instruction` does on a fetched jump: the register file and
the memory are left alone, and the next program counter is chosen by the
predicate of the jump on bits 0, 6, 7 and 11 of register 0. -/
theorem execute_jump [Build] (pc : Nat) (instructions : List instruction_t) (m : Machine)
    (instr : instruction_t) (hfetch : instructions[pc / 4]? = some instr)
    (hop : instr.opcode ∈ jump_opcodes) :
    execute_instruction pc instructions m =
      Outcome.next
        (if jump_predicate instr.opcode ((m.registers 0).testBit 0)
              ((m.registers 0).testBit 6) ((m.registers 0).testBit 7)
              ((m.registers 0).testBit 11) = true
          then u32 ((pc : Int) + 4 + sext16 instr.immediate) else wrap32 (pc + 4)) m := by
  simp only [jump_opcodes, List.mem_cons, List.mem_singleton, List.not_mem_nil, or_false] at hop
  rcases hop with h | h | h | h | h | h <;>
    simp only [execute_instruction, hfetch, h, jump_predicate, shift_and_one] <;>
    cases (m.registers 0).testBit 0 <;> cases (m.registers 0).testBit 6 <;>
    cases (m.registers 0).testBit 7 <;> cases (m.registers 0).testBit 11 <;> simp


/-- C11: jump predicates and targets.  For every value `f` of register 0, every
program counter `pc` and every immediate `d`, each of `je`, `jl`, `jle`, `jbe`,
`jge`, `jmp` returns `pc + 4 + d` (mod 2^32, `d` sign-extended from 16 bits)
when its predicate holds and `pc + 4` otherwise, the predicate being: `je` -
bit 6 of `f`; `jl` - bit 7 XOR bit 11; `jle` - (bit 7 XOR bit 11) OR bit 6;
`jbe` - bit 0 OR bit 6; `jge` - NOT (bit 7 XOR bit 11); `jmp` - always.  The
returned program counter is the same in any two states whose register 0 agrees
on bits 0, 6, 7 and 11, and the jump leaves every register, every memory byte
and both streams as they were. -/
theorem jump_predicates_targets [Build] (pc : Nat) (instructions : List instruction_t) (m : Machine)
    (instr : instruction_t) (hfetch : instructions[pc / 4]? = some instr)
    (hop : instr.opcode ∈ jump_opcodes) :
    execute_instruction pc instructions m =
        Outcome.next
          (if jump_predicate instr.opcode ((m.registers 0).testBit 0)
                ((m.registers 0).testBit 6) ((m.registers 0).testBit 7)
                ((m.registers 0).testBit 11) = true
            then u32 ((pc : Int) + 4 + sext16 instr.immediate) else wrap32 (pc + 4)) m ∧
      ∀ m2 : Machine,
        (∀ k ∈ [0, 6, 7, 11], (m2.registers 0).testBit k = (m.registers 0).testBit k) →
        ∃ t, execute_instruction pc instructions m = Outcome.next t m ∧
          execute_instruction pc instructions m2 = Outcome.next t m2 := by
  refine ⟨execute_jump pc instructions m instr hfetch hop, ?_⟩
  intro m2 hbits
  refine ⟨_, execute_jump pc instructions m instr hfetch hop, ?_⟩
  rw [execute_jump pc instructions m2 instr hfetch hop, hbits 0 (by simp), hbits 6 (by simp),
    hbits 7 (by simp), hbits 11 (by simp)]

/-- Witness for C11: `jl` with displacement 8 at program counter 4, register 0
holding the flags `0x881` left by comparing `-2147483648` with `1`. -/
theorem jump_predicates_targets_witness :
    jump_program[4 / 4]? = some ⟨jl, 0, 0, 8⟩ ∧ jl ∈ jump_opcodes ∧
      (execute_instruction 4 jump_program flags_machine =
          Outcome.next
            (if jump_predicate jl ((flags_machine.registers 0).testBit 0)
                  ((flags_machine.registers 0).testBit 6)
                  ((flags_machine.registers 0).testBit 7)
                  ((flags_machine.registers 0).testBit 11) = true
              then u32 (((4 : Nat) : Int) + 4 + sext16 8) else wrap32 (4 + 4)) flags_machine ∧
        ∀ m2 : Machine,
          (∀ k ∈ [0, 6, 7, 11],
            (m2.registers 0).testBit k = (flags_machine.registers 0).testBit k) →
          ∃ t, execute_instruction 4 jump_program flags_machine = Outcome.next t flags_machine ∧
            execute_instruction 4 jump_program m2 = Outcome.next t m2) :=
  ⟨rfl, by decide,
    jump_predicates_targets 4 jump_program flags_machine ⟨jl, 0, 0, 8⟩ rfl (by decide)⟩


/-! ## Immediate operands -/

/-- The signed value of a 16-bit pattern lies in `[-32768, 32767]`. -/
theorem sext16_range (imm : Nat) (h : imm < 65536) :
    -32768 ≤ sext16 imm ∧ sext16 imm ≤ 32767 := by
  simp only [sext16]
  split_ifs <;> omega

theorem u32_cast (x : Int) : ((u32 x : Nat) : Int) = x % 4294967296 := by
  simp only [u32]
  omega

/-- C12: immediate operands are sign-extended.  For every state, register index
`r` in `[0, 16]` and 16-bit immediate `imm` with signed value `s` in
`[-32768, 32767]`, `movl_imm_reg` sets register `r` to `s mod 2^32`, `subl` sets
it to `(old r - s) mod 2^32` and `addl_imm_reg` sets it to
`(old r + s) mod 2^32`; each returns the program counter + 4. -/
theorem immediate_sign_extended [Build] (pc : Nat) (instructions : List instruction_t) (m : Machine)
    (instr : instruction_t) (hfetch : instructions[pc / 4]? = some instr)
    (hr : instr.first_register ≤ 16) (himm : instr.immediate < 65536) :
    (-32768 ≤ sext16 instr.immediate ∧ sext16 instr.immediate ≤ 32767) ∧
      (instr.opcode = movl_imm_reg →
        ∃ m1, execute_instruction pc instructions m = Outcome.next (wrap32 (pc + 4)) m1 ∧
          (m1.registers instr.first_register : Int) = sext16 instr.immediate % 4294967296) ∧
      (instr.opcode = subl →
        ∃ m1, execute_instruction pc instructions m = Outcome.next (wrap32 (pc + 4)) m1 ∧
          (m1.registers instr.first_register : Int) =
            ((m.registers instr.first_register : Int) - sext16 instr.immediate) %
              4294967296) ∧
      (instr.opcode = addl_imm_reg →
        ∃ m1, execute_instruction pc instructions m = Outcome.next (wrap32 (pc + 4)) m1 ∧
          (m1.registers instr.first_register : Int) =
            ((m.registers instr.first_register : Int) + sext16 instr.immediate) %
              4294967296) := by
  have hlt : instr.first_register < 17 := by omega
  refine ⟨sext16_range _ himm, ?_, ?_, ?_⟩
  · intro hop
    refine ⟨{ m with
      registers :=
        setReg m.registers instr.first_register (u32 (sext16 instr.immediate)) }, ?_, ?_⟩
    · simp [execute_instruction, hfetch, hop, NUM_REGS, hlt]
    · simp only [setReg_same, u32_cast]
  · intro hop
    refine ⟨{ m with
      registers :=
        setReg m.registers instr.first_register
          (u32 ((m.registers instr.first_register : Int) - sext16 instr.immediate)) }, ?_, ?_⟩
    · simp [execute_instruction, hfetch, hop, NUM_REGS, hlt]
    · simp only [setReg_same, u32_cast]
  · intro hop
    refine ⟨{ m with
      registers :=
        setReg m.registers instr.first_register
          (u32 ((m.registers instr.first_register : Int) + sext16 instr.immediate)) }, ?_, ?_⟩
    · simp [execute_instruction, hfetch, hop, NUM_REGS, hlt]
    · simp only [setReg_same, u32_cast]

/-- Witness for C12: `movl_imm_reg r1, 0xFFFF` gives `0xFFFFFFFF`; `subl r1,
0xFFFF` and `addl_imm_reg r1, 0x8000` on `registers[1] = 0`. -/
theorem immediate_sign_extended_witness :
    sext16 65535 % 4294967296 = 4294967295 ∧
      (∃ m1, execute_instruction 0 immediate_program above_machine =
          Outcome.next (wrap32 (0 + 4)) m1 ∧
        (m1.registers 1 : Int) = sext16 65535 % 4294967296) ∧
      (∃ m1, execute_instruction 4 immediate_program above_machine =
          Outcome.next (wrap32 (4 + 4)) m1 ∧
        (m1.registers 1 : Int) = ((above_machine.registers 1 : Int) - sext16 65535) %
          4294967296) ∧
      (∃ m1, execute_instruction 8 immediate_program above_machine =
          Outcome.next (wrap32 (8 + 4)) m1 ∧
        (m1.registers 1 : Int) = ((above_machine.registers 1 : Int) + sext16 32768) %
          4294967296) :=
  ⟨by decide,
    (immediate_sign_extended 0 immediate_program above_machine ⟨movl_imm_reg, 1, 0, 65535⟩ rfl
      (by decide) (by decide)).2.1 rfl,
    (immediate_sign_extended 4 immediate_program above_machine ⟨subl, 1, 0, 65535⟩ rfl
      (by decide) (by decide)).2.2.1 rfl,
    (immediate_sign_extended 8 immediate_program above_machine ⟨addl_imm_reg, 1, 0, 32768⟩ rfl
      (by decide) (by decide)).2.2.2 rfl⟩


/-! ## The step function, case by case -/

/-- Every opcode value is one of the 22 defined opcodes or none of them. -/
theorem opcode_cases (op : Nat) :
    op = subl ∨ op = addl_reg_reg ∨ op = addl_imm_reg ∨ op = imull ∨ op = shrl ∨
      op = movl_reg_reg ∨ op = movl_deref_reg ∨ op = movl_reg_deref ∨ op = movl_imm_reg ∨
      op = cmpl ∨ op = je ∨ op = jl ∨ op = jle ∨ op = jbe ∨ op = jge ∨ op = jmp ∨ op = call ∨
      op = ret ∨ op = pushl ∨ op = popl ∨ op = printr ∨ op = readr ∨ op ∉ defined_opcodes := by
  by_cases h : op ∈ defined_opcodes
  · simp only [defined_opcodes, List.mem_cons, List.mem_singleton, List.not_mem_nil,
      or_false] at h
    rcases h with h | h | h | h | h | h | h | h | h | h | h | h | h | h | h | h | h | h | h |
      h | h | h <;> simp [h]
  · simp [h]

/-- An opcode without a case in the `switch` falls through: nothing is touched. -/
theorem execute_unknown [Build] (pc : Nat) (instructions : List instruction_t) (m : Machine)
    (instr : instruction_t) (hfetch : instructions[pc / 4]? = some instr)
    (hop : instr.opcode ∉ defined_opcodes) :
    execute_instruction pc instructions m = Outcome.next (wrap32 (pc + 4)) m := by
  simp only [defined_opcodes, List.mem_cons, List.mem_singleton, List.not_mem_nil, or_false,
    not_or] at hop
  obtain ⟨h0, h1, h2, h3, h4, h5, h6, h7, h8, h9, h10, h11, h12, h13, h14, h15, h16, h17, h18,
    h19, h20, h21⟩ := hop
  simp only [execute_instruction, hfetch, if_neg h0, if_neg h1, if_neg h2, if_neg h3, if_neg h4,
    if_neg h5, if_neg h6, if_neg h7, if_neg h8, if_neg h9, if_neg h10, if_neg h11, if_neg h12,
    if_neg h13, if_neg h14, if_neg h15, if_neg h16, if_neg h17, if_neg h18, if_neg h19,
    if_neg h20, if_neg h21]

/-- The program counter a call of `execute_instruction` can return. -/
theorem execute_next_pc [Build] (pc : Nat) (instructions : List instruction_t) (m : Machine)
    (instr : instruction_t) (hfetch : instructions[pc / 4]? = some instr)
    (pc1 : Nat) (m1 : Machine)
    (h : execute_instruction pc instructions m = Outcome.next pc1 m1) :
    pc1 = wrap32 (pc + 4) ∨
      (instr.opcode ∈ [je, jl, jle, jbe, jge, jmp, call] ∧
        pc1 = u32 ((pc : Int) + 4 + sext16 instr.immediate)) ∨
      instr.opcode = ret := by
  rcases opcode_cases instr.opcode with h0 | h0 | h0 | h0 | h0 | h0 | h0 | h0 | h0 | h0 | h0 |
    h0 | h0 | h0 | h0 | h0 | h0 | h0 | h0 | h0 | h0 | h0 | h0
  all_goals first
    | (rw [execute_unknown pc instructions m instr hfetch h0] at h; cases h; left; rfl)
    | (right; right; exact h0)
    | (rw [execute_instruction, hfetch] at h
       simp only [h0, subl, addl_reg_reg, addl_imm_reg, imull, shrl, movl_reg_reg,
         movl_deref_reg, movl_reg_deref, movl_imm_reg, cmpl, je, jl, jle, jbe, jge, jmp, call,
         ret, pushl, popl, printr, readr, reduceIte, Nat.reduceEqDiff] at h
       first
         | (cases h; right; left; exact ⟨by simp [h0], rfl⟩)
         | (split_ifs at h <;> first
             | (cases h; left; rfl)
             | (cases h; right; left; exact ⟨by simp [h0], rfl⟩)
             | (split at h <;> cases h <;> left <;> rfl)))


/-- Only `ret` ends the process. -/
theorem execute_exit [Build] (pc : Nat) (instructions : List instruction_t) (m : Machine)
    (instr : instruction_t) (hfetch : instructions[pc / 4]? = some instr)
    (status : Nat) (m1 : Machine)
    (h : execute_instruction pc instructions m = Outcome.exit status m1) :
    instr.opcode = ret := by
  rcases opcode_cases instr.opcode with h0 | h0 | h0 | h0 | h0 | h0 | h0 | h0 | h0 | h0 | h0 |
    h0 | h0 | h0 | h0 | h0 | h0 | h0 | h0 | h0 | h0 | h0 | h0
  all_goals first
    | (rw [execute_unknown pc instructions m instr hfetch h0] at h; cases h)
    | exact h0
    | (rw [execute_instruction, hfetch] at h
       simp only [h0, subl, addl_reg_reg, addl_imm_reg, imull, shrl, movl_reg_reg,
         movl_deref_reg, movl_reg_deref, movl_imm_reg, cmpl, je, jl, jle, jbe, jge, jmp, call,
         ret, pushl, popl, printr, readr, reduceIte, Nat.reduceEqDiff] at h
       first
         | cases h
         | (split_ifs at h <;> first
             | cases h
             | (split at h <;> cases h)))

/-- Non-control instructions: either an out-of-bounds access or a return of `pc + 4`. -/
theorem execute_fallthrough [Build] (pc : Nat) (instructions : List instruction_t) (m : Machine)
    (instr : instruction_t) (hfetch : instructions[pc / 4]? = some instr)
    (hop : instr.opcode ∉ control_opcodes) :
    execute_instruction pc instructions m = Outcome.undefined ∨
      ∃ m1, execute_instruction pc instructions m = Outcome.next (wrap32 (pc + 4)) m1 := by
  cases h : execute_instruction pc instructions m with
  | undefined => left; rfl
  | next pc1 m1 =>
    right
    rcases execute_next_pc pc instructions m instr hfetch pc1 m1 h with h1 | ⟨h1, -⟩ | h1
    · exact ⟨m1, by rw [h1]⟩
    · exact absurd (by
        simp only [List.mem_cons, List.mem_singleton, List.not_mem_nil, or_false] at h1
        simp only [control_opcodes, List.mem_cons, List.mem_singleton, List.not_mem_nil, or_false]
        tauto) hop
    · exact absurd (by simp [control_opcodes, h1]) hop
  | exit status m1 =>
    exact absurd (by simp [control_opcodes, execute_exit pc instructions m instr hfetch _ _ h])
      hop

/-- The accesses of a non-control instruction are in bounds: it returns. -/
theorem execute_defined [Build] (pc : Nat) (instructions : List instruction_t) (m : Machine)
    (instr : instruction_t) (hfetch : instructions[pc / 4]? = some instr)
    (hop : instr.opcode ∉ control_opcodes)
    (h1 : instr.first_register ≤ 16) (h2 : instr.second_register ≤ 16)
    (hload : instr.opcode = movl_deref_reg →
      0 ≤ (m.registers instr.first_register : Int) + sext16 instr.immediate ∧
        (m.registers instr.first_register : Int) + sext16 instr.immediate + 4 ≤ 1024)
    (hstore : instr.opcode = movl_reg_deref →
      0 ≤ (m.registers instr.second_register : Int) + sext16 instr.immediate ∧
        (m.registers instr.second_register : Int) + sext16 instr.immediate + 4 ≤ 1024)
    (hpush : instr.opcode = pushl → 4 ≤ m.registers 8 ∧ m.registers 8 ≤ 1024)
    (hpop : instr.opcode = popl → m.registers 8 ≤ 1020) :
    execute_instruction pc instructions m ≠ Outcome.undefined := by
  have hr1 : instr.first_register < 17 := by omega
  have hr2 : instr.second_register < 17 := by omega
  rcases opcode_cases instr.opcode with h0 | h0 | h0 | h0 | h0 | h0 | h0 | h0 | h0 | h0 | h0 |
    h0 | h0 | h0 | h0 | h0 | h0 | h0 | h0 | h0 | h0 | h0 | h0
  all_goals first
    | (rw [execute_unknown pc instructions m instr hfetch h0]; simp)
    | (exfalso; apply hop; simp [control_opcodes, h0]; done)
    | (rw [execute_instruction, hfetch]
       simp only [h0, subl, addl_reg_reg, addl_imm_reg, imull, shrl, movl_reg_reg,
         movl_deref_reg, movl_reg_deref, movl_imm_reg, cmpl, je, jl, jle, jbe, jge, jmp, call,
         ret, pushl, popl, printr, readr, reduceIte, Nat.reduceEqDiff, NUM_REGS, STACK_SIZE,
         hr1, hr2, and_self, true_and]
       first
         | (simp; done)
         | (split <;> simp; done)
         | simp [hload h0]
         | simp [hstore h0]
         | (rw [setReg_same, u32_sub_four _ (hpush h0).1 (hpush h0).2,
              if_pos (by have hh := hpush h0; omega)]
            simp)
         | (rw [if_pos (by have hh := hpop h0; omega)]; simp))

/-- C13 (amended): fall-through.  For every state, every program counter `pc`
and every instruction whose opcode is not one of `je`, `jl`, `jle`, `jbe`,
`jge`, `jmp`, `call`, `ret`: `execute_instruction` never ends the process and
never returns anything but `pc + 4` (mod 2^32); and it does return `pc + 4`
whenever its accesses are in bounds, that is, both register indices are in
`[0, 16]`, the address of a `movl_deref_reg` or `movl_reg_deref` lies in
`[0, 1020]`, the stack pointer lies in `[4, 1024]` for `pushl` and in
`[0, 1020]` for `popl`. -/
theorem fallthrough_returns [Build] (pc : Nat) (instructions : List instruction_t) (m : Machine)
    (instr : instruction_t) (hfetch : instructions[pc / 4]? = some instr)
    (hop : instr.opcode ∉ control_opcodes) :
    (execute_instruction pc instructions m = Outcome.undefined ∨
        ∃ m1, execute_instruction pc instructions m = Outcome.next (wrap32 (pc + 4)) m1) ∧
      (instr.first_register ≤ 16 → instr.second_register ≤ 16 →
        (instr.opcode = movl_deref_reg →
          0 ≤ (m.registers instr.first_register : Int) + sext16 instr.immediate ∧
            (m.registers instr.first_register : Int) + sext16 instr.immediate + 4 ≤ 1024) →
        (instr.opcode = movl_reg_deref →
          0 ≤ (m.registers instr.second_register : Int) + sext16 instr.immediate ∧
            (m.registers instr.second_register : Int) + sext16 instr.immediate + 4 ≤ 1024) →
        (instr.opcode = pushl → 4 ≤ m.registers 8 ∧ m.registers 8 ≤ 1024) →
        (instr.opcode = popl → m.registers 8 ≤ 1020) →
        ∃ m1, execute_instruction pc instructions m = Outcome.next (wrap32 (pc + 4)) m1) := by
  have hcases := execute_fallthrough pc instructions m instr hfetch hop
  refine ⟨hcases, ?_⟩
  intro h1 h2 hload hstore hpush hpop
  rcases hcases with hu | hn
  · exact absurd hu
      (execute_defined pc instructions m instr hfetch hop h1 h2 hload hstore hpush hpop)
  · exact hn

/-- Witness for the amended C13: `pushl r2` at program counter 0 with stack
pointer 1024. -/
theorem fallthrough_returns_witness :
    push_pop_program[0 / 4]? = some ⟨pushl, 2, 0, 0⟩ ∧ pushl ∉ control_opcodes ∧
      (4 ≤ above_machine.registers 8 ∧ above_machine.registers 8 ≤ 1024) ∧
      ∃ m1, execute_instruction 0 push_pop_program above_machine =
        Outcome.next (wrap32 (0 + 4)) m1 :=
  ⟨rfl, by decide, by decide,
    (fallthrough_returns 0 push_pop_program above_machine ⟨pushl, 2, 0, 0⟩ rfl (by decide)).2
      (by decide) (by decide) (fun h => absurd h (by decide)) (fun h => absurd h (by decide))
      (fun _ => by decide) (fun h => absurd h (by decide))⟩

/-- Counterexample to C13 as stated: `pushl r2` with stack pointer 0 moves the
stack pointer to `0xFFFFFFFC` and copies 4 bytes to `memory + 0xFFFFFFFC`, far
outside the 1024 bytes of memory; the call does not return `pc + 4`. -/
theorem fallthrough_counterexample :
    push_pop_program[0 / 4]? = some ⟨pushl, 2, 0, 0⟩ ∧ pushl ∉ control_opcodes ∧
      u32 ((zero_machine.registers 8 : Int) - 4) = 4294967292 ∧
      execute_instruction 0 push_pop_program zero_machine = Outcome.undefined ∧
      ¬ ∃ m1, execute_instruction 0 push_pop_program zero_machine =
        Outcome.next (wrap32 (0 + 4)) m1 := by
  have h : execute_instruction 0 push_pop_program zero_machine = Outcome.undefined := rfl
  refine ⟨rfl, by decide, by decide, h, ?_⟩
  rintro ⟨m1, h1⟩
  rw [h] at h1
  cases h1


/-! ## Compare with the flags register as operand; the stack pointer -/

/-- C14 (evaluation of the code): `cmpl` with the flags register as an operand.
With `first_register = 1`, `second_register = 0`, `registers[0] = 7` and
`registers[1] = 1` the operand values before the instruction are `r1 = 1`,
`r2 = 7`: `r2` is neither below nor equal to `r1`, so carry and zero of
`r2 - r1` are both 0.  The code clears `registers[0]` before it reads the
operands and reads it again for every test, so it sets carry (`0 < 1`) and then
zero (`1 - 1 = 0`): register 0 ends as `0x41`.  With `first_register = 0`,
`second_register = 1`, `registers[0] = 5`, `registers[1] = 3` the operands are
`r1 = 5`, `r2 = 3`, so carry is 1, and the code leaves register 0 equal to 0. -/
theorem cmpl_flags_register_operand :
    (flag_operand_program[8 / 4]? = some ⟨cmpl, 1, 0, 0⟩ ∧
        ¬ alias_machine.registers 0 < alias_machine.registers 1 ∧
        alias_machine.registers 0 ≠ alias_machine.registers 1 ∧
        execute_instruction 8 flag_operand_program alias_machine =
          Outcome.next 12
            { alias_machine with registers := cmpl_flags alias_machine.registers 1 0 } ∧
        cmpl_flags alias_machine.registers 1 0 0 = 65 ∧
        (cmpl_flags alias_machine.registers 1 0 0).testBit 0 = true ∧
        (cmpl_flags alias_machine.registers 1 0 0).testBit 6 = true) ∧
      (flag_operand_program[0 / 4]? = some ⟨cmpl, 0, 1, 0⟩ ∧
        flag_operand_machine.registers 1 < flag_operand_machine.registers 0 ∧
        execute_instruction 0 flag_operand_program flag_operand_machine =
          Outcome.next 4
            { flag_operand_machine with
              registers := cmpl_flags flag_operand_machine.registers 0 1 } ∧
        cmpl_flags flag_operand_machine.registers 0 1 0 = 0 ∧
        (cmpl_flags flag_operand_machine.registers 0 1 0).testBit 0 = false) :=
  ⟨⟨rfl, by decide, by decide, rfl, by decide, by decide, by decide⟩,
    rfl, by decide, rfl, by decide, by decide⟩

/-- An instruction other than `call`, `ret`, `pushl`, `popl` that does not assign
register 8 leaves register 8 alone. -/
theorem execute_frame_sp [Build] (pc : Nat) (instructions : List instruction_t) (m : Machine)
    (instr : instruction_t) (hfetch : instructions[pc / 4]? = some instr)
    (hop : instr.opcode ∉ stack_opcodes) (hdest : destination_register instr ≠ some 8)
    (pc1 : Nat) (m1 : Machine)
    (h : execute_instruction pc instructions m = Outcome.next pc1 m1) :
    m1.registers 8 = m.registers 8 := by
  rcases opcode_cases instr.opcode with h0 | h0 | h0 | h0 | h0 | h0 | h0 | h0 | h0 | h0 | h0 |
    h0 | h0 | h0 | h0 | h0 | h0 | h0 | h0 | h0 | h0 | h0 | h0
  all_goals first
    | (rw [execute_unknown pc instructions m instr hfetch h0] at h; cases h; rfl)
    | (exfalso; apply hop; simp [stack_opcodes, h0]; done)
    | (rw [execute_instruction, hfetch] at h
       simp only [destination_register, h0, subl, addl_reg_reg, addl_imm_reg, imull, shrl,
         movl_reg_reg, movl_deref_reg, movl_reg_deref, movl_imm_reg, cmpl, je, jl, jle, jbe,
         jge, jmp, call, ret, pushl, popl, printr, readr, reduceIte, Nat.reduceEqDiff,
         List.mem_cons, List.mem_singleton, List.not_mem_nil, or_false, or_true, true_or,
         ne_eq, Option.some.injEq] at h hdest
       first
         | (cases h; rfl)
         | (split_ifs at h <;> first
             | (cases h; rfl)
             | (cases h; exact setReg_other _ _ _ _ (Ne.symm hdest))
             | (cases h; exact cmpl_flags_other _ _ _ 8 (by decide))
             | (split at h <;> cases h <;> first
                 | rfl
                 | exact setReg_other _ _ _ _ (Ne.symm hdest))))

/-- C15 (amended): the stack pointer is changed only by `call`, `ret`, `pushl`,
`popl` and by an instruction that assigns register 8.  For every state and
every instruction whose opcode is none of `call`, `ret`, `pushl`, `popl` and
whose destination register is not register 8, `execute_instruction` does not
end the process and register 8 has the same value after it as before; with
register indices in `[0, 16]` and the address of a `movl_deref_reg` or
`movl_reg_deref` in `[0, 1020]` the instruction does return. -/
theorem stack_pointer_unchanged [Build] (pc : Nat) (instructions : List instruction_t) (m : Machine)
    (instr : instruction_t) (hfetch : instructions[pc / 4]? = some instr)
    (hop : instr.opcode ∉ stack_opcodes) (hdest : destination_register instr ≠ some 8) :
    (∀ pc1 m1, execute_instruction pc instructions m = Outcome.next pc1 m1 →
        m1.registers 8 = m.registers 8) ∧
      (∀ status m1, execute_instruction pc instructions m ≠ Outcome.exit status m1) ∧
      (instr.first_register ≤ 16 → instr.second_register ≤ 16 →
        (instr.opcode = movl_deref_reg →
          0 ≤ (m.registers instr.first_register : Int) + sext16 instr.immediate ∧
            (m.registers instr.first_register : Int) + sext16 instr.immediate + 4 ≤ 1024) →
        (instr.opcode = movl_reg_deref →
          0 ≤ (m.registers instr.second_register : Int) + sext16 instr.immediate ∧
            (m.registers instr.second_register : Int) + sext16 instr.immediate + 4 ≤ 1024) →
        ∃ pc1 m1, execute_instruction pc instructions m = Outcome.next pc1 m1 ∧
          m1.registers 8 = m.registers 8) := by
  have hframe := execute_frame_sp pc instructions m instr hfetch hop hdest
  have hstack : instr.opcode ≠ call ∧ instr.opcode ≠ ret ∧ instr.opcode ≠ pushl ∧
      instr.opcode ≠ popl := by
    simpa only [stack_opcodes, List.mem_cons, List.mem_singleton, List.not_mem_nil, or_false,
      not_or] using hop
  refine ⟨hframe, ?_, ?_⟩
  · intro status m1 h
    exact hstack.2.1 (execute_exit pc instructions m instr hfetch status m1 h)
  · intro h1 h2 hload hstore
    by_cases hj : instr.opcode ∈ jump_opcodes
    · exact ⟨_, m, execute_jump pc instructions m instr hfetch hj, rfl⟩
    · have hc : instr.opcode ∉ control_opcodes := by
        simp only [jump_opcodes, List.mem_cons, List.mem_singleton, List.not_mem_nil, or_false,
          not_or] at hj
        simp only [control_opcodes, List.mem_cons, List.mem_singleton, List.not_mem_nil,
          or_false, not_or]
        exact ⟨hj.1, hj.2.1, hj.2.2.1, hj.2.2.2.1, hj.2.2.2.2.1, hj.2.2.2.2.2, hstack.1,
          hstack.2.1⟩
      rcases execute_fallthrough pc instructions m instr hfetch hc with hu | ⟨m1, hn⟩
      · exact absurd hu
          (execute_defined pc instructions m instr hfetch hc h1 h2 hload hstore
            (fun h => absurd h hstack.2.2.1) (fun h => absurd h hstack.2.2.2))
      · exact ⟨_, m1, hn, hframe _ m1 hn⟩

/-- Witness for the amended C15: `cmpl r0, r1`, which assigns register 0. -/
theorem stack_pointer_unchanged_witness :
    flag_operand_program[0 / 4]? = some ⟨cmpl, 0, 1, 0⟩ ∧ cmpl ∉ stack_opcodes ∧
      destination_register ⟨cmpl, 0, 1, 0⟩ ≠ some 8 ∧
      ∃ pc1 m1, execute_instruction 0 flag_operand_program flag_operand_machine =
          Outcome.next pc1 m1 ∧
        m1.registers 8 = flag_operand_machine.registers 8 :=
  ⟨rfl, by decide, by decide,
    (stack_pointer_unchanged 0 flag_operand_program flag_operand_machine ⟨cmpl, 0, 1, 0⟩ rfl
      (by decide) (by decide)).2.2 (by decide) (by decide) (fun h => absurd h (by decide))
      (fun h => absurd h (by decide))⟩

/-- Counterexample to C15 as stated: `movl_imm_reg r8, 5` is none of `call`,
`ret`, `pushl`, `popl`, has its register index in `[0, 16]`, and changes
register 8 from 1024 to 5. -/
theorem stack_pointer_counterexample :
    flag_operand_program[4 / 4]? = some ⟨movl_imm_reg, 8, 0, 5⟩ ∧
      movl_imm_reg ∉ stack_opcodes ∧
      execute_instruction 4 flag_operand_program above_machine =
        Outcome.next 8 { above_machine with registers := setReg above_machine.registers 8 5 } ∧
      setReg above_machine.registers 8 5 8 = 5 ∧ above_machine.registers 8 = 1024 :=
  ⟨rfl, by decide, rfl, by decide, by decide⟩


/-! ## Unknown opcodes, the remaining jumps, store and load -/


/-- Bits 0, 6, 7 and 11 of a flag word built from the four flags. -/
theorem flags_testBit (c z s o : Prop) [Decidable c] [Decidable z] [Decidable s] [Decidable o] :
    (flag 0 c ||| flag 6 z ||| flag 7 s ||| flag 11 o).testBit 0 = decide c ∧
    (flag 0 c ||| flag 6 z ||| flag 7 s ||| flag 11 o).testBit 6 = decide z ∧
    (flag 0 c ||| flag 6 z ||| flag 7 s ||| flag 11 o).testBit 7 = decide s ∧
    (flag 0 c ||| flag 6 z ||| flag 7 s ||| flag 11 o).testBit 11 = decide o := by
  by_cases hc : c <;> by_cases hz : z <;> by_cases hs : s <;> by_cases ho : o <;>
    simp only [flag, hc, hz, hs, ho, if_true, if_false] <;> decide

/-- What `execute_instruction` does on an in-bounds `movl_reg_deref`. -/
theorem execute_store [Build] (pc : Nat) (instructions : List instruction_t) (m : Machine)
    (s b k : Nat) (hfetch : instructions[pc / 4]? = some ⟨movl_reg_deref, s, b, k⟩)
    (hs : s ≤ 16) (hb : b ≤ 16)
    (haddr : 0 ≤ (m.registers b : Int) + sext16 k ∧ (m.registers b : Int) + sext16 k ≤ 1020) :
    execute_instruction pc instructions m =
      Outcome.next (wrap32 (pc + 4))
        { m with
          memory := write4 m.memory ((m.registers b : Int) + sext16 k).toNat (m.registers s) } := by
  have h1 : s < 17 := by omega
  have h2 : b < 17 := by omega
  have h3 : (m.registers b : Int) + sext16 k + 4 ≤ 1024 := by omega
  simp [execute_instruction, hfetch, NUM_REGS, STACK_SIZE, h1, h2, haddr.1, h3]

/-- What `execute_instruction` does on an in-bounds `movl_deref_reg`. -/
theorem execute_load [Build] (pc : Nat) (instructions : List instruction_t) (m : Machine)
    (b d k : Nat) (hfetch : instructions[pc / 4]? = some ⟨movl_deref_reg, b, d, k⟩)
    (hb : b ≤ 16) (hd : d ≤ 16)
    (haddr : 0 ≤ (m.registers b : Int) + sext16 k ∧ (m.registers b : Int) + sext16 k ≤ 1020) :
    execute_instruction pc instructions m =
      Outcome.next (wrap32 (pc + 4))
        { m with
          registers :=
            setReg m.registers d (read4 m.memory ((m.registers b : Int) + sext16 k).toNat) } := by
  have h1 : b < 17 := by omega
  have h2 : d < 17 := by omega
  have h3 : (m.registers b : Int) + sext16 k + 4 ≤ 1024 := by omega
  simp [execute_instruction, hfetch, NUM_REGS, STACK_SIZE, h1, h2, haddr.1, h3]

theorem toInt32_inj (a b : Nat) (ha : a < 4294967296) (hb : b < 4294967296) :
    toInt32 b = toInt32 a ↔ b = a := by
  simp only [toInt32]
  split_ifs <;> omega

/-- Which jumps are taken on a flag word built from the four flags. -/
theorem jump_taken_flags (c z s o : Prop) [Decidable c] [Decidable z] [Decidable s]
    [Decidable o] :
    jump_taken je (flag 0 c ||| flag 6 z ||| flag 7 s ||| flag 11 o) = decide z ∧
    jump_taken jl (flag 0 c ||| flag 6 z ||| flag 7 s ||| flag 11 o) =
      (decide s != decide o) ∧
    jump_taken jle (flag 0 c ||| flag 6 z ||| flag 7 s ||| flag 11 o) =
      ((decide s != decide o) || decide z) ∧
    jump_taken jbe (flag 0 c ||| flag 6 z ||| flag 7 s ||| flag 11 o) =
      (decide c || decide z) ∧
    jump_taken jge (flag 0 c ||| flag 6 z ||| flag 7 s ||| flag 11 o) =
      !(decide s != decide o) := by
  by_cases hc : c <;> by_cases hz : z <;> by_cases hs : s <;> by_cases ho : o <;>
    simp only [flag, hc, hz, hs, ho, if_true, if_false, decide_True, decide_False] <;> decide

/-- The conditional jumps after `cmpl`, for every build.  For every state with
32-bit registers and `cmpl r1, r2` on general-purpose registers (indices 1..16)
holding `a = r1`, `b = r2`: in the state `cmpl` leaves, `je` is taken iff
`b = a` and exactly one of `jl` and `jge` is taken; when the exact signed
difference `b - a` lies in `[-2^31, 2^31 - 1]`, `jle` is taken iff `b <= a` and
`jge` is taken iff `b >= a` as signed 32-bit integers; a jump that is taken
returns `pc + 4 + d` and one that is not taken returns `pc + 4`. -/
theorem cmpl_jumps_agree [Build] (pc0 : Nat) (instructions : List instruction_t) (m : Machine)
    (c : instruction_t) (hm : m.WF)
    (hc : instructions[pc0 / 4]? = some c) (hcop : c.opcode = cmpl)
    (h1 : 1 ≤ c.first_register ∧ c.first_register ≤ 16)
    (h2 : 1 ≤ c.second_register ∧ c.second_register ≤ 16) :
    ∃ m1, execute_instruction pc0 instructions m = Outcome.next (wrap32 (pc0 + 4)) m1 ∧
      (jump_taken je (m1.registers 0) = true ↔
        m.registers c.second_register = m.registers c.first_register) ∧
      (jump_taken jl (m1.registers 0) = true ↔ ¬ jump_taken jge (m1.registers 0) = true) ∧
      (-2147483648 ≤
            toInt32 (m.registers c.second_register) - toInt32 (m.registers c.first_register) ∧
          toInt32 (m.registers c.second_register) - toInt32 (m.registers c.first_register) ≤
            2147483647 →
        (jump_taken jle (m1.registers 0) = true ↔
          toInt32 (m.registers c.second_register) ≤
            toInt32 (m.registers c.first_register)) ∧
        (jump_taken jge (m1.registers 0) = true ↔
          toInt32 (m.registers c.first_register) ≤
            toInt32 (m.registers c.second_register))) ∧
      ∀ pc j, instructions[pc / 4]? = some j → j.opcode ∈ jump_opcodes →
        execute_instruction pc instructions m1 =
          Outcome.next
            (if jump_taken j.opcode (m1.registers 0) = true
              then u32 ((pc : Int) + 4 + sext16 j.immediate) else wrap32 (pc + 4)) m1 := by
  have ha : m.registers c.first_register < 4294967296 :=
    hm.1 _ (by simp only [NUM_REGS]; omega)
  have hb : m.registers c.second_register < 4294967296 :=
    hm.1 _ (by simp only [NUM_REGS]; omega)
  have hz := zero_iff _ _ ha hb
  have hinj := toInt32_inj _ _ ha hb
  obtain ⟨tje, tjl, tjle, -, tjge⟩ := jump_taken_flags
    (m.registers c.second_register < m.registers c.first_register)
    (u32 ((m.registers c.second_register : Int) - (m.registers c.first_register : Int)) = 0)
    (sign_test (m.registers c.second_register) (m.registers c.first_register) = true)
    (toInt32 (m.registers c.second_register) - toInt32 (m.registers c.first_register) >
        2147483647 ∨
      toInt32 (m.registers c.second_register) - toInt32 (m.registers c.first_register) <
        -2147483648)
  have hf := cmpl_flags_zero m.registers c.first_register c.second_register (by omega)
    (by omega)
  refine ⟨_, execute_cmpl pc0 instructions m c hc hcop (by omega) (by omega), ?_, ?_, ?_, ?_⟩
  · show jump_taken je (cmpl_flags m.registers c.first_register c.second_register 0) = true ↔ _
    rw [hf, tje, decide_eq_true_eq]
    exact hz
  · show jump_taken jl (cmpl_flags m.registers c.first_register c.second_register 0) = true ↔
      ¬ jump_taken jge (cmpl_flags m.registers c.first_register c.second_register 0) = true
    rw [hf, tjl, tjge]
    simp only [Bool.not_eq_true', bne_eq_false_iff_eq, Bool.not_eq_true, bne_iff_ne, ne_eq]
  · intro hfit
    have hlt := signed_lt_iff _ _ hfit
    constructor
    · show jump_taken jle (cmpl_flags m.registers c.first_register c.second_register 0) = true ↔ _
      rw [hf, tjle, Int.le_iff_lt_or_eq, hlt, hinj, ← hz]
      simp only [Bool.or_eq_true, bne_iff_ne, ne_eq, decide_eq_true_eq, decide_eq_decide]
    · show jump_taken jge (cmpl_flags m.registers c.first_register c.second_register 0) = true ↔ _
      rw [hf, tjge, ← not_lt, hlt, not_not]
      simp only [Bool.not_eq_true', bne_eq_false_iff_eq, decide_eq_decide]
  · intro pc j hj hop
    exact execute_jump pc instructions _ j hj hop

/-- C18 (evaluation of the code): `cmpl r1, r2` on `r1 = -2147483648`, `r2 = 1`
followed by `jle` and `jge`, in a build that folds the sign test of `cmpl` to
`r2 < r1`.  The exact signed difference `r2 - r1` does not fit in an `int`;
`cmpl` leaves register 0 equal to `0x801` (carry and overflow, sign clear).
Although `r2 >= r1` and not `r2 <= r1` as signed 32-bit integers, `jle` at
program counter 4 is taken (returns `4 + 4 + 8 = 16`) and `jge` at program
counter 8 is not taken (returns `8 + 4 = 12`). -/
theorem cmpl_signed_jumps_overflow :
    signed_compare_program[0 / 4]? = some ⟨cmpl, 1, 2, 0⟩ ∧
      signed_compare_program[4 / 4]? = some ⟨jle, 0, 0, 8⟩ ∧
      signed_compare_program[8 / 4]? = some ⟨jge, 0, 0, 8⟩ ∧
      overflow_machine.registers 1 = 2147483648 ∧ overflow_machine.registers 2 = 1 ∧
      toInt32 (overflow_machine.registers 1) = -2147483648 ∧
      toInt32 (overflow_machine.registers 2) = 1 ∧
      2147483647 <
        toInt32 (overflow_machine.registers 2) - toInt32 (overflow_machine.registers 1) ∧
      @execute_instruction folding_build 0 signed_compare_program overflow_machine =
        Outcome.next 4 overflow_folded ∧
      overflow_folded.registers 0 = 2049 ∧
      ¬ toInt32 (overflow_machine.registers 2) ≤ toInt32 (overflow_machine.registers 1) ∧
      jump_taken jle (overflow_folded.registers 0) = true ∧
      @execute_instruction folding_build 4 signed_compare_program overflow_folded =
        Outcome.next 16 overflow_folded ∧
      toInt32 (overflow_machine.registers 1) ≤ toInt32 (overflow_machine.registers 2) ∧
      jump_taken jge (overflow_folded.registers 0) = false ∧
      @execute_instruction folding_build 8 signed_compare_program overflow_folded =
        Outcome.next 12 overflow_folded :=
  ⟨rfl, rfl, rfl, by decide, by decide, by decide, by decide, by decide, rfl, by decide,
    by decide, by decide, rfl, by decide, by decide, rfl⟩

/-- C17: unknown opcodes are silent no-ops.  For every 32-bit word whose opcode
field (bits 31..27) is none of the 22 defined opcodes, `decode_instructions`
produces a record for it like for any other word, and executing that record
from any state at program counter `pc` returns `pc + 4` and leaves the state as
it was: no register, no memory byte, no output, no input is touched. -/
theorem unknown_opcode_noop [Build] (pc : Nat) (bytes : List Nat) (w : Nat) (m : Machine)
    (hw : w < 4294967296) (hfetch : bytes[pc / 4]? = some w)
    (hop : bitField w 27 5 ∉ defined_opcodes) :
    (decode_instructions bytes).length = bytes.length ∧
      (decode_instructions bytes)[pc / 4]? = some (decode_word w) ∧
      (decode_word w).opcode = bitField w 27 5 ∧
      execute_instruction pc (decode_instructions bytes) m =
        Outcome.next (wrap32 (pc + 4)) m := by
  have hdec : (decode_instructions bytes)[pc / 4]? = some (decode_word w) := by
    rw [decode_instructions_eq_map, List.getElem?_map, hfetch, Option.map_some']
  have hopc : (decode_word w).opcode = bitField w 27 5 := by
    rw [decode_word_eq w hw]
  refine ⟨by rw [decode_instructions_eq_map, List.length_map], hdec, hopc, ?_⟩
  exact execute_unknown pc (decode_instructions bytes) m (decode_word w) hdec
    (by rw [hopc]; exact hop)

/-- Witness for C17: the word `0xF8000000`, whose opcode field is 31. -/
theorem unknown_opcode_noop_witness :
    4160749568 < 4294967296 ∧ unknown_bytes[0 / 4]? = some 4160749568 ∧
      bitField 4160749568 27 5 ∉ defined_opcodes ∧
      (decode_instructions unknown_bytes).length = unknown_bytes.length ∧
      (decode_instructions unknown_bytes)[0 / 4]? = some (decode_word 4160749568) ∧
      (decode_word 4160749568).opcode = bitField 4160749568 27 5 ∧
      execute_instruction 0 (decode_instructions unknown_bytes) flags_machine =
        Outcome.next (wrap32 (0 + 4)) flags_machine :=
  ⟨by decide, rfl, by decide,
    unknown_opcode_noop 0 unknown_bytes 4160749568 flags_machine (by decide) rfl (by decide)⟩


theorem store_machine_WF : store_machine.WF := by
  refine ⟨fun i _ => ?_, fun a _ => by simp [store_machine, machine_of]⟩
  simp only [store_machine, machine_of, setReg]
  split_ifs <;> decide

/-- C19: store then load round trip.  For every state with 32-bit registers,
register indices `s`, `b`, `d` in `[0, 16]` and immediate `k` such that the
address `registers[b] + k` (`k` sign-extended, taken as an integer) lies in
`[0, 1020]`, executing `movl_reg_deref` with `first_register = s`,
`second_register = b`, `immediate = k` and then `movl_deref_reg` with
`first_register = b`, `second_register = d`, `immediate = k` leaves register
`d` equal to the value register `s` held before the store, changes no memory
byte outside the 4 bytes at that address and no register other than `d`. -/
theorem store_load_roundtrip [Build] (pc1 pc2 : Nat) (instructions : List instruction_t) (m : Machine)
    (s b d k : Nat) (hm : m.WF) (hs : s ≤ 16) (hb : b ≤ 16) (hd : d ≤ 16)
    (haddr : 0 ≤ (m.registers b : Int) + sext16 k ∧ (m.registers b : Int) + sext16 k ≤ 1020)
    (hp : instructions[pc1 / 4]? = some ⟨movl_reg_deref, s, b, k⟩)
    (hq : instructions[pc2 / 4]? = some ⟨movl_deref_reg, b, d, k⟩) :
    ∃ m1 m2, execute_instruction pc1 instructions m = Outcome.next (wrap32 (pc1 + 4)) m1 ∧
      execute_instruction pc2 instructions m1 = Outcome.next (wrap32 (pc2 + 4)) m2 ∧
      m2.registers d = m.registers s ∧
      (∀ a, a < ((m.registers b : Int) + sext16 k).toNat ∨
          ((m.registers b : Int) + sext16 k).toNat + 4 ≤ a → m2.memory a = m.memory a) ∧
      (∀ j, j ≠ d → m2.registers j = m.registers j) := by
  have hv : m.registers s < 4294967296 := hm.1 s (by simp only [NUM_REGS]; omega)
  have h1 := execute_store pc1 instructions m s b k hp hs hb haddr
  have h2 := execute_load pc2 instructions
    { m with
      memory := write4 m.memory ((m.registers b : Int) + sext16 k).toNat (m.registers s) }
    b d k hq hb hd haddr
  refine ⟨_, _, h1, h2, ?_, ?_, ?_⟩
  · show setReg m.registers d
      (read4 (write4 m.memory ((m.registers b : Int) + sext16 k).toNat (m.registers s))
        ((m.registers b : Int) + sext16 k).toNat) d = m.registers s
    rw [setReg_same, read4_write4 _ _ _ hv]
  · intro a ha
    exact write4_other _ _ _ _ ha
  · intro j hj
    exact setReg_other _ _ _ _ hj

/-- Witness for C19: `movl_reg_deref r1, 8(r3)` then `movl_deref_reg 8(r3), r2`
with `registers[3] = 100`. -/
theorem store_load_roundtrip_witness :
    store_machine.WF ∧ 1 ≤ 16 ∧ 3 ≤ 16 ∧ 2 ≤ 16 ∧
      (0 ≤ (store_machine.registers 3 : Int) + sext16 8 ∧
        (store_machine.registers 3 : Int) + sext16 8 ≤ 1020) ∧
      store_load_program[0 / 4]? = some ⟨movl_reg_deref, 1, 3, 8⟩ ∧
      store_load_program[4 / 4]? = some ⟨movl_deref_reg, 3, 2, 8⟩ ∧
      ∃ m1 m2, execute_instruction 0 store_load_program store_machine =
          Outcome.next (wrap32 (0 + 4)) m1 ∧
        execute_instruction 4 store_load_program m1 = Outcome.next (wrap32 (4 + 4)) m2 ∧
        m2.registers 2 = store_machine.registers 1 ∧
        (∀ a, a < ((store_machine.registers 3 : Int) + sext16 8).toNat ∨
            ((store_machine.registers 3 : Int) + sext16 8).toNat + 4 ≤ a →
          m2.memory a = store_machine.memory a) ∧
        (∀ j, j ≠ 2 → m2.registers j = store_machine.registers j) :=
  ⟨store_machine_WF, by decide, by decide, by decide, by decide, rfl, rfl,
    store_load_roundtrip 0 4 store_load_program store_machine 1 3 2 8 store_machine_WF
      (by decide) (by decide) (by decide) (by decide) rfl rfl⟩


/-! ## Runs of the loop -/

theorem wrap32_of_lt (n : Nat) (h : n < 4294967296) : wrap32 n = n := by
  simp only [wrap32]
  omega

/-- At the end address the loop is left, whatever the fuel. -/
theorem main_loop_end [Build] (prog : List instruction_t) (fuel : Nat) (m : Machine)
    (fetched : List Nat) (pc : Nat) (h : pc = wrap32 (prog.length * 4)) :
    main_loop prog fuel pc m fetched = ⟨fetched, RunResult.returned pc m⟩ := by
  cases fuel <;> simp [main_loop, h]

/-- One iteration of the loop away from the end address. -/
theorem main_loop_step [Build] (prog : List instruction_t) (fuel : Nat) (m : Machine)
    (fetched : List Nat) (pc : Nat) (h : pc ≠ wrap32 (prog.length * 4)) :
    main_loop prog (fuel + 1) pc m fetched =
      match execute_instruction pc prog m with
      | Outcome.next pc1 m1 => main_loop prog fuel pc1 m1 (fetched ++ [pc / 4])
      | Outcome.exit status m1 => ⟨fetched ++ [pc / 4], RunResult.exited status m1⟩
      | Outcome.undefined => ⟨fetched ++ [pc / 4], RunResult.undefined⟩ := by
  rw [main_loop, if_neg h]

/-- A program without control transfers is run instruction by instruction: from
instruction `i` with `k` instructions left, the loop either reaches the end
address after fetching `i, ..., i + k - 1`, or stops earlier at an out-of-bounds
access. -/
theorem straight_line_run [Build] (prog : List instruction_t) (hN : 4 * prog.length < 4294967296)
    (hs : ∀ instr ∈ prog, instr.opcode ∉ control_opcodes) (e : Nat) :
    ∀ (k i : Nat) (m : Machine) (fetched : List Nat), i + k = prog.length →
      (∃ m1, main_loop prog (k + e) (4 * i) m fetched =
          ⟨fetched ++ List.range' i k, RunResult.returned (4 * prog.length) m1⟩) ∨
        ∃ j, j < k ∧ main_loop prog (k + e) (4 * i) m fetched =
          ⟨fetched ++ List.range' i (j + 1), RunResult.undefined⟩ := by
  have hend : wrap32 (prog.length * 4) = 4 * prog.length := by
    rw [wrap32_of_lt _ (by omega)]
    omega
  intro k
  induction k with
  | zero =>
    intro i m fetched hi
    left
    have hi2 : i = prog.length := by omega
    refine ⟨m, ?_⟩
    rw [main_loop_end prog _ m fetched (4 * i) (by rw [hend, hi2]), hi2]
    simp
  | succ k ih =>
    intro i m fetched hi
    have hlt : i < prog.length := by omega
    have hne : 4 * i ≠ wrap32 (prog.length * 4) := by
      rw [hend]
      omega
    have hidx : 4 * i / 4 = i := by omega
    have hfetch : prog[4 * i / 4]? = some prog[i] := by
      rw [hidx]
      exact List.getElem?_eq_getElem hlt
    have hop := hs prog[i] (List.getElem_mem hlt)
    have hfuel : k + 1 + e = (k + e) + 1 := by omega
    rw [hfuel, main_loop_step prog _ m fetched (4 * i) hne, hidx]
    rcases execute_fallthrough (4 * i) prog m prog[i] hfetch hop with hu | ⟨m1, hn⟩
    · right
      refine ⟨0, by omega, ?_⟩
      rw [hu]
      simp
    · rw [hn]
      have hpc : wrap32 (4 * i + 4) = 4 * (i + 1) := by
        rw [wrap32_of_lt _ (by omega)]
        omega
      simp only [hpc]
      rcases ih (i + 1) m1 (fetched ++ [i]) (by omega) with ⟨m2, h2⟩ | ⟨j, hj, h2⟩
      · left
        refine ⟨m2, ?_⟩
        rw [h2, List.range'_succ]
        simp
      · right
        refine ⟨j + 1, by omega, ?_⟩
        rw [h2, List.range'_succ i (j + 1)]
        simp

/-- A program without control transfers none of whose steps is out of bounds
reaches the end address. -/
theorem straight_line_defined_run [Build] (prog : List instruction_t)
    (hN : 4 * prog.length < 4294967296)
    (hs : ∀ instr ∈ prog, instr.opcode ∉ control_opcodes)
    (hdef : ∀ (i : Nat) (m : Machine), i < prog.length →
      execute_instruction (4 * i) prog m ≠ Outcome.undefined) (e : Nat) :
    ∀ (k i : Nat) (m : Machine) (fetched : List Nat), i + k = prog.length →
      ∃ m1, main_loop prog (k + e) (4 * i) m fetched =
        ⟨fetched ++ List.range' i k, RunResult.returned (4 * prog.length) m1⟩ := by
  intro k
  induction k with
  | zero =>
    intro i m fetched hi
    rcases straight_line_run prog hN hs e 0 i m fetched hi with h | ⟨j, hj, -⟩
    · exact h
    · omega
  | succ k ih =>
    intro i m fetched hi
    have hend : wrap32 (prog.length * 4) = 4 * prog.length := by
      rw [wrap32_of_lt _ (by omega)]
      omega
    have hlt : i < prog.length := by omega
    have hne : 4 * i ≠ wrap32 (prog.length * 4) := by
      rw [hend]
      omega
    have hidx : 4 * i / 4 = i := by omega
    have hfetch : prog[4 * i / 4]? = some prog[i] := by
      rw [hidx]
      exact List.getElem?_eq_getElem hlt
    have hop := hs prog[i] (List.getElem_mem hlt)
    have hfuel : k + 1 + e = (k + e) + 1 := by omega
    rw [hfuel, main_loop_step prog _ m fetched (4 * i) hne, hidx]
    rcases execute_fallthrough (4 * i) prog m prog[i] hfetch hop with hu | ⟨m1, hn⟩
    · exact absurd hu (hdef i m hlt)
    · rw [hn]
      have hpc : wrap32 (4 * i + 4) = 4 * (i + 1) := by
        rw [wrap32_of_lt _ (by omega)]
        omega
      simp only [hpc]
      obtain ⟨m2, h2⟩ := ih (i + 1) m1 (fetched ++ [i]) (by omega)
      refine ⟨m2, ?_⟩
      rw [h2, List.range'_succ]
      simp

/-- A run that is still going after `k` steps is continued by one more step. -/
theorem main_loop_running_succ [Build] (prog : List instruction_t) :
    ∀ (k pc : Nat) (m : Machine) (f : List Nat) (pc1 : Nat) (m1 : Machine),
      (main_loop prog k pc m f).result = RunResult.running pc1 m1 →
      main_loop prog (k + 1) pc m f = main_loop prog 1 pc1 m1 (main_loop prog k pc m f).fetched := by
  intro k
  induction k with
  | zero =>
    intro pc m f pc1 m1 h
    by_cases hpc : pc = wrap32 (prog.length * 4)
    · rw [main_loop_end prog 0 m f pc hpc] at h
      cases h
    · have h0 : main_loop prog 0 pc m f = ⟨f, RunResult.running pc m⟩ := by
        simp only [main_loop, if_neg hpc]
      rw [h0] at h ⊢
      cases h
      rfl
  | succ k ih =>
    intro pc m f pc1 m1 h
    by_cases hpc : pc = wrap32 (prog.length * 4)
    · rw [main_loop_end prog _ m f pc hpc] at h
      cases h
    · rw [main_loop_step prog k m f pc hpc] at h
      rw [main_loop_step prog (k + 1) m f pc hpc, main_loop_step prog k m f pc hpc]
      cases hx : execute_instruction pc prog m with
      | undefined =>
        rw [hx] at h
        cases h
      | exit status m2 =>
        rw [hx] at h
        cases h
      | next pc2 m2 =>
        rw [hx] at h
        exact ih pc2 m2 _ pc1 m1 h

/-- A run that has ended after `k` steps is not changed by more fuel. -/
theorem main_loop_ended_succ [Build] (prog : List instruction_t) :
    ∀ (k pc : Nat) (m : Machine) (f : List Nat),
      (∀ pc1 m1, (main_loop prog k pc m f).result ≠ RunResult.running pc1 m1) →
      main_loop prog (k + 1) pc m f = main_loop prog k pc m f := by
  intro k
  induction k with
  | zero =>
    intro pc m f h
    by_cases hpc : pc = wrap32 (prog.length * 4)
    · rw [main_loop_end prog _ m f pc hpc, main_loop_end prog _ m f pc hpc]
    · exact absurd (by simp only [main_loop, if_neg hpc]) (h pc m)
  | succ k ih =>
    intro pc m f h
    by_cases hpc : pc = wrap32 (prog.length * 4)
    · rw [main_loop_end prog _ m f pc hpc, main_loop_end prog _ m f pc hpc]
    · rw [main_loop_step prog k m f pc hpc] at h
      rw [main_loop_step prog (k + 1) m f pc hpc, main_loop_step prog k m f pc hpc]
      cases hx : execute_instruction pc prog m with
      | undefined => rfl
      | exit status m2 => rfl
      | next pc2 m2 =>
        rw [hx] at h
        exact ih pc2 m2 _ h

/-- The program counter stays a multiple of 4 in `[0, 4 * N]` along a run from
address 0 when the jumps and calls of the program have valid targets and every
`ret` executed with a stack pointer other than 1024 pops a valid address. -/
theorem pc_invariant_run [Build] (prog : List instruction_t) (hN : 4 * prog.length < 4294967296)
    (htarget : ∀ (i : Nat) (instr : instruction_t), prog[i]? = some instr →
      instr.opcode ∈ [je, jl, jle, jbe, jge, jmp, call] →
      transfer_target i instr.immediate % 4 = 0 ∧ 0 ≤ transfer_target i instr.immediate ∧
        transfer_target i instr.immediate ≤ 4 * (prog.length : Int))
    (m0 : Machine) :
    ∀ (fuel : Nat),
      (∀ k, k < fuel → ∀ (pc1 : Nat) (m : Machine) (instr : instruction_t),
        (main_loop prog k 0 m0 []).result = RunResult.running pc1 m →
        prog[pc1 / 4]? = some instr → instr.opcode = ret → m.registers 8 ≠ 1024 →
        read4 m.memory (m.registers 8) % 4 = 0 ∧
          read4 m.memory (m.registers 8) ≤ 4 * prog.length) →
      ∀ (pc : Nat) (m1 : Machine),
        (main_loop prog fuel 0 m0 []).result = RunResult.running pc m1 ∨
          (main_loop prog fuel 0 m0 []).result = RunResult.returned pc m1 →
        pc % 4 = 0 ∧ pc ≤ 4 * prog.length := by
  have hend : wrap32 (prog.length * 4) = 4 * prog.length := by
    rw [wrap32_of_lt _ (by omega)]
    omega
  intro fuel
  induction fuel with
  | zero =>
    intro _ pc m1 h
    simp only [main_loop] at h
    split_ifs at h
    · rcases h with h | h
      · cases h
      · cases h
        omega
    · rcases h with h | h
      · cases h
        omega
      · cases h
  | succ fuel ih =>
    intro hpop pc m1 h
    have ih1 := ih (fun k hk => hpop k (by omega))
    cases hR : (main_loop prog fuel 0 m0 []).result with
    | returned pcr mr =>
      rw [main_loop_ended_succ prog fuel 0 m0 [] (by rw [hR]; intro _ _ hh; cases hh), hR] at h
      rcases h with h | h
      · cases h
      · cases h
        exact ih1 pc m1 (Or.inr hR)
    | exited status mr =>
      rw [main_loop_ended_succ prog fuel 0 m0 [] (by rw [hR]; intro _ _ hh; cases hh), hR] at h
      rcases h with h | h <;> cases h
    | undefined =>
      rw [main_loop_ended_succ prog fuel 0 m0 [] (by rw [hR]; intro _ _ hh; cases hh), hR] at h
      rcases h with h | h <;> cases h
    | running pcr mr =>
      obtain ⟨hr4, hrN⟩ := ih1 pcr mr (Or.inl hR)
      rw [main_loop_running_succ prog fuel 0 m0 [] pcr mr hR] at h
      by_cases hpc : pcr = wrap32 (prog.length * 4)
      · rw [main_loop_end prog _ mr _ pcr hpc] at h
        rcases h with h | h
        · cases h
        · cases h
          exact ⟨hr4, hrN⟩
      · have hlt : pcr / 4 < prog.length := by
          rw [hend] at hpc
          omega
        have hfetch : prog[pcr / 4]? = some prog[pcr / 4] := List.getElem?_eq_getElem hlt
        rw [main_loop_step prog 0 mr _ pcr hpc] at h
        cases hx : execute_instruction pcr prog mr with
        | undefined =>
          rw [hx] at h
          rcases h with h | h <;> cases h
        | exit status m2 =>
          rw [hx] at h
          rcases h with h | h <;> cases h
        | next pc2 m2 =>
          rw [hx] at h
          have hpc2 : pc = pc2 := by
            simp only [main_loop] at h
            split_ifs at h
            · rcases h with h | h
              · cases h
              · cases h
                rfl
            · rcases h with h | h
              · cases h
                rfl
              · cases h
          rw [hpc2]
          rcases execute_next_pc pcr prog mr prog[pcr / 4] hfetch pc2 m2 hx with
            h1 | ⟨hj, h1⟩ | h1
          · rw [h1, wrap32_of_lt _ (by omega)]
            rw [hend] at hpc
            omega
          · obtain ⟨t4, t0, tN⟩ := htarget (pcr / 4) prog[pcr / 4] hfetch hj
            simp only [transfer_target] at t4 t0 tN
            rw [h1]
            simp only [u32]
            omega
          · rw [execute_ret pcr prog mr prog[pcr / 4] hfetch h1] at hx
            split_ifs at hx with hsp hb
            · cases hx
              exact hpop fuel (Nat.lt_succ_self _) pcr mr prog[pcr / 4] hR hfetch h1 hsp

/-- C16 (amended): program-counter invariant for runs with well-formed control
transfers.  For every build and every decoded program of N instructions
(`4 * N < 2^32`) in which every jump or call at index `i` with immediate `d`
has a target `4 * (i + 1) + d` (`d` sign-extended) that is a multiple of 4 in
`[0, 4 * N]`: if every `ret` executed during the first `fuel` steps of the run
while register 8 differs from 1024 pops a 4-byte value that is a multiple of 4
in `[0, 4 * N]`, then the state reached after `fuel` steps from the initial
state (program counter 0, registers 0 except register 8 = 1024, any memory and
input) by applying `execute_instruction` while the program counter differs
from `4 * N` has a program counter that is a multiple of 4 in `[0, 4 * N]`.  A
`ret` executed with register 8 equal to 1024 ends the run and needs no
condition. -/
theorem program_counter_invariant [Build] (prog : List instruction_t) (memory : Nat → Nat)
    (input : List Int) (hN : 4 * prog.length < 4294967296)
    (htarget : ∀ (i : Nat) (instr : instruction_t), prog[i]? = some instr →
      instr.opcode ∈ [je, jl, jle, jbe, jge, jmp, call] →
      transfer_target i instr.immediate % 4 = 0 ∧ 0 ≤ transfer_target i instr.immediate ∧
        transfer_target i instr.immediate ≤ 4 * (prog.length : Int))
    (fuel pc : Nat)
    (hpop : ∀ k, k < fuel → ∀ (pc1 : Nat) (m : Machine) (instr : instruction_t),
      (main_loop prog k 0 (initial_machine memory input) []).result = RunResult.running pc1 m →
      prog[pc1 / 4]? = some instr → instr.opcode = ret → m.registers 8 ≠ 1024 →
      read4 m.memory (m.registers 8) % 4 = 0 ∧
        read4 m.memory (m.registers 8) ≤ 4 * prog.length)
    (h : (main_loop prog fuel 0 (initial_machine memory input) []).result.program_counter =
      some pc) :
    pc % 4 = 0 ∧ pc ≤ 4 * prog.length := by
  cases hr : (main_loop prog fuel 0 (initial_machine memory input) []).result with
  | returned pc1 m1 =>
    rw [hr] at h
    cases h
    exact pc_invariant_run prog hN htarget (initial_machine memory input) fuel hpop pc m1
      (Or.inr hr)
  | running pc1 m1 =>
    rw [hr] at h
    cases h
    exact pc_invariant_run prog hN htarget (initial_machine memory input) fuel hpop pc m1
      (Or.inl hr)
  | exited status m1 =>
    rw [hr] at h
    cases h
  | undefined =>
    rw [hr] at h
    cases h

/-- The call of `call_ret_program` has a valid target. -/
theorem call_ret_program_targets (i : Nat) (instr : instruction_t)
    (h : call_ret_program[i]? = some instr)
    (hj : instr.opcode ∈ [je, jl, jle, jbe, jge, jmp, call]) :
    transfer_target i instr.immediate % 4 = 0 ∧ 0 ≤ transfer_target i instr.immediate ∧
      transfer_target i instr.immediate ≤ 4 * (call_ret_program.length : Int) := by
  have key : ∀ p ∈ call_ret_program.enum, p.2.opcode ∈ [je, jl, jle, jbe, jge, jmp, call] →
      transfer_target p.1 p.2.immediate % 4 = 0 ∧ 0 ≤ transfer_target p.1 p.2.immediate ∧
        transfer_target p.1 p.2.immediate ≤ 4 * (call_ret_program.length : Int) := by
    decide
  exact key (i, instr) (List.mk_mem_enum_iff_getElem?.2 h) hj

/-- In the first three steps of `call_ret_program` the only `ret` executed pops
the address 4. -/
theorem call_ret_program_pops (k : Nat) (hk : k < 3) (pc1 : Nat) (m : Machine)
    (instr : instruction_t)
    (hr : (main_loop call_ret_program k 0 (initial_machine (fun _ => 0) []) []).result =
      RunResult.running pc1 m)
    (hf : call_ret_program[pc1 / 4]? = some instr) (hop : instr.opcode = ret)
    (_hsp : m.registers 8 ≠ 1024) :
    read4 m.memory (m.registers 8) % 4 = 0 ∧
      read4 m.memory (m.registers 8) ≤ 4 * call_ret_program.length := by
  interval_cases k
  · have h0 : (main_loop call_ret_program 0 0 (initial_machine (fun _ => 0) []) []).result =
        RunResult.running 0 (initial_machine (fun _ => 0) []) := rfl
    rw [h0] at hr
    cases hr
    cases hf
    exact absurd hop (by decide)
  · have h0 : (main_loop call_ret_program 1 0 (initial_machine (fun _ => 0) []) []).result =
        RunResult.running 8 (call_state (initial_machine (fun _ => 0) []) 0) := rfl
    rw [h0] at hr
    cases hr
    decide
  · have h0 : (main_loop call_ret_program 2 0 (initial_machine (fun _ => 0) []) []).result =
        RunResult.running 4
          (ret_state (call_state (initial_machine (fun _ => 0) []) 0)) := rfl
    rw [h0] at hr
    cases hr
    cases hf
    exact absurd hop (by decide)

/-- The program `example_program` has no jump and no call. -/
theorem example_program_targets (i : Nat) (instr : instruction_t)
    (h : (example_program (fun _ => 0))[i]? = some instr)
    (hj : instr.opcode ∈ [je, jl, jle, jbe, jge, jmp, call]) :
    transfer_target i instr.immediate % 4 = 0 ∧ 0 ≤ transfer_target i instr.immediate ∧
      transfer_target i instr.immediate ≤ 4 * ((example_program (fun _ => 0)).length : Int) := by
  have key : ∀ p ∈ (example_program (fun _ => 0)).enum,
      p.2.opcode ∈ [je, jl, jle, jbe, jge, jmp, call] →
      transfer_target p.1 p.2.immediate % 4 = 0 ∧ 0 ≤ transfer_target p.1 p.2.immediate ∧
        transfer_target p.1 p.2.immediate ≤ 4 * ((example_program (fun _ => 0)).length : Int) := by
    decide
  exact key (i, instr) (List.mk_mem_enum_iff_getElem?.2 h) hj

/-- In the first four steps of `example_program` no `ret` is executed. -/
theorem example_program_pops (k : Nat) (hk : k < 4) (pc1 : Nat) (m : Machine)
    (instr : instruction_t)
    (hr : (main_loop (example_program (fun _ => 0)) k 0
      (initial_machine (fun _ => 0) []) []).result = RunResult.running pc1 m)
    (hf : (example_program (fun _ => 0))[pc1 / 4]? = some instr) (hop : instr.opcode = ret)
    (_hsp : m.registers 8 ≠ 1024) :
    read4 m.memory (m.registers 8) % 4 = 0 ∧
      read4 m.memory (m.registers 8) ≤ 4 * (example_program (fun _ => 0)).length := by
  have hp : (main_loop (example_program (fun _ => 0)) k 0
      (initial_machine (fun _ => 0) []) []).result.program_counter = some (4 * k) := by
    interval_cases k <;> rfl
  rw [hr] at hp
  cases hp
  interval_cases k <;> cases hf <;> exact absurd hop (by decide)

/-- Witness for the amended C16: `call_ret_program` fetches the instructions at
addresses 0 (`call`), 8 (`ret`, which pops the address 4) and 4, and is at
program counter 8 after three steps; `example_program` fetches the
instructions at addresses 0, 4, 8, 12 and is at program counter 16, the
address of its final `ret`, after four steps. -/
theorem program_counter_invariant_witness :
    (4 * call_ret_program.length < 4294967296 ∧
        (main_loop call_ret_program 3 0 (initial_machine (fun _ => 0) []) []).fetched =
          [0, 2, 1] ∧
        (main_loop call_ret_program 3 0
            (initial_machine (fun _ => 0) []) []).result.program_counter = some 8 ∧
        (8 % 4 = 0 ∧ 8 ≤ 4 * call_ret_program.length)) ∧
      (4 * (example_program (fun _ => 0)).length < 4294967296 ∧
        (main_loop (example_program (fun _ => 0)) 4 0
            (initial_machine (fun _ => 0) []) []).fetched = [0, 1, 2, 3] ∧
        (main_loop (example_program (fun _ => 0)) 4 0
            (initial_machine (fun _ => 0) []) []).result.program_counter = some 16 ∧
        (16 % 4 = 0 ∧ 16 ≤ 4 * (example_program (fun _ => 0)).length)) :=
  ⟨⟨by decide, rfl, rfl,
      program_counter_invariant call_ret_program (fun _ => 0) [] (by decide)
        call_ret_program_targets 3 8 call_ret_program_pops rfl⟩,
    ⟨by decide, rfl, rfl,
      program_counter_invariant (example_program (fun _ => 0)) (fun _ => 0) [] (by decide)
        example_program_targets 4 16 example_program_pops rfl⟩⟩

/-- Counterexample to C16 as stated: the one-instruction program `jmp +1` is at
program counter 5 after one step, which is neither a multiple of 4 nor in
`[0, 4]`; and `movl_imm_reg r1, 6; pushl r1; ret` is at program counter 6
after three steps. -/
theorem program_counter_counterexample :
    (main_loop odd_jump_program 1 0 (initial_machine (fun _ => 0) []) []).result.program_counter =
        some 5 ∧
      ¬ (5 % 4 = 0 ∧ 5 ≤ 4 * odd_jump_program.length) ∧
      (main_loop pushed_return_program 3 0
          (initial_machine (fun _ => 0) []) []).result.program_counter = some 6 ∧
      ¬ (6 % 4 = 0 ∧ 6 ≤ 4 * pushed_return_program.length) :=
  ⟨rfl, by decide, rfl, by decide⟩

/-- C20 (amended): straight-line programs terminate unless a step is out of
bounds.  For every decoded program of N instructions (`4 * N < 2^32`) none of
whose opcodes is `je`, `jl`, `jle`, `jbe`, `jge`, `jmp`, `call` or `ret`, the
loop started at program counter 0 fetches the instruction indices `0, 1, ...`
in that order and never an index `>= N`; either one of these steps accesses a
register or memory out of bounds and the run stops there, or the loop applies
`execute_instruction` exactly N times, fetching `0, 1, ..., N-1`, and stops
with program counter `4 * N`.  The latter is the case whenever every register
index is in `[0, 16]` and no opcode is `movl_deref_reg`, `movl_reg_deref`,
`pushl` or `popl`. -/
theorem straight_line_terminates [Build] (prog : List instruction_t) (m : Machine) (e : Nat)
    (hN : 4 * prog.length < 4294967296)
    (hs : ∀ instr ∈ prog, instr.opcode ∉ control_opcodes) :
    ((∃ m1, main_loop prog (prog.length + e) 0 m [] =
          ⟨List.range prog.length, RunResult.returned (4 * prog.length) m1⟩) ∨
        ∃ j, j < prog.length ∧ main_loop prog (prog.length + e) 0 m [] =
          ⟨List.range (j + 1), RunResult.undefined⟩) ∧
      ((∀ instr ∈ prog, instr.first_register ≤ 16 ∧ instr.second_register ≤ 16 ∧
          instr.opcode ∉ memory_opcodes) →
        ∃ m1, main_loop prog (prog.length + e) 0 m [] =
          ⟨List.range prog.length, RunResult.returned (4 * prog.length) m1⟩) := by
  constructor
  · have h := straight_line_run prog hN hs e prog.length 0 m [] (by omega)
    simpa only [List.nil_append, List.range_eq_range', Nat.mul_zero] using h
  · intro hreg
    have hdef : ∀ (i : Nat) (m0 : Machine), i < prog.length →
        execute_instruction (4 * i) prog m0 ≠ Outcome.undefined := by
      intro i m0 hi
      have hidx : 4 * i / 4 = i := by omega
      have hfetch : prog[4 * i / 4]? = some prog[i] := by
        rw [hidx]
        exact List.getElem?_eq_getElem hi
      obtain ⟨h1, h2, hmem⟩ := hreg prog[i] (List.getElem_mem hi)
      simp only [memory_opcodes, List.mem_cons, List.mem_singleton, List.not_mem_nil,
        or_false, not_or] at hmem
      exact execute_defined (4 * i) prog m0 prog[i] hfetch (hs _ (List.getElem_mem hi)) h1 h2
        (fun h => absurd h hmem.1) (fun h => absurd h hmem.2.1)
        (fun h => absurd h hmem.2.2.1) (fun h => absurd h hmem.2.2.2)
    have h := straight_line_defined_run prog hN hs hdef e prog.length 0 m [] (by omega)
    simpa only [List.nil_append, List.range_eq_range', Nat.mul_zero] using h

/-- Witness for the amended C20: `movl_imm_reg r1, 5; addl_imm_reg r1, 3;
printr r1` from the initial state. -/
theorem straight_line_terminates_witness :
    4 * straight_program.length < 4294967296 ∧
      (∀ instr ∈ straight_program, instr.opcode ∉ control_opcodes) ∧
      (∀ instr ∈ straight_program, instr.first_register ≤ 16 ∧ instr.second_register ≤ 16 ∧
        instr.opcode ∉ memory_opcodes) ∧
      ∃ m1, main_loop straight_program (straight_program.length + 0) 0
          (initial_machine (fun _ => 0) []) [] =
        ⟨List.range straight_program.length,
          RunResult.returned (4 * straight_program.length) m1⟩ :=
  ⟨by decide, by decide, by decide,
    (straight_line_terminates straight_program (initial_machine (fun _ => 0) []) 0 (by decide)
      (by decide)).2 (by decide)⟩

/-- Counterexample to C20 as stated: the program `movl_imm_reg r1, 0xFFFF;
movl_reg_deref r1, 0(r1)` has no control transfer; its second instruction
copies 4 bytes to `memory + 0xFFFFFFFF`, outside the 1024 bytes of memory, and
the run stops there instead of leaving the loop with program counter 8. -/
theorem straight_line_counterexample :
    4 * stray_store_program.length < 4294967296 ∧
      (∀ instr ∈ stray_store_program, instr.opcode ∉ control_opcodes) ∧
      main_loop stray_store_program 2 0 (initial_machine (fun _ => 0) []) [] =
        ⟨[0, 1], RunResult.undefined⟩ :=
  ⟨by decide, by decide, rfl⟩

end Simulator
